import Mathlib

/- Verification development for the adAlchemy generation orchestration and
delivery pipeline (src/bot.py, src/llm_client.py, src/campaign_generator.py).

The Python code is shallowly embedded: Python strings are `List Char`, JSON
values are the mutual inductive `Json`, the per-chat generation-state dict
`app.bot_data["generation_state"] : dict[int, dict[str, Any]]` is a function
from chat ids to optional records, and fallible code returns `Option` or
`Except`.  Loops that Python writes with unbounded `while`/recursion are
given explicit fuel chosen large enough at every entry point, with stability
lemmas showing the fuel does not cut the computation short. -/

namespace AdAlchemy

/-! ## Generation coordinator state (bot.py lines 88-129)

`_register_generation` stores `{"active": True, "request_id": request_id,
"result_sent": False}` under the chat id; the other helpers read and mutate
that dict. -/

/-- One record of the `generation_state` table, exactly the dict installed by
`_register_generation` in bot.py line 104. -/
structure GenRecord where
  active : Bool
  request_id : Option Int
  result_sent : Bool
deriving DecidableEq, Repr

/-- The `generation_state` table: chat id → record.  A missing key is `none`
(Python `state.get(chat_id)` returning `None`). -/
def GenState : Type := Int → Option GenRecord

/-- bot.py `_is_generation_active` (lines 96-99):
`bool(data and data.get("active"))`. -/
def is_generation_active (st : GenState) (chat : Int) : Bool :=
  match st chat with
  | none => false
  | some r => r.active

/-- bot.py `_register_generation` (lines 102-104):
`state[chat_id] = {"active": True, "request_id": request_id, "result_sent": False}`. -/
def register_generation (st : GenState) (chat : Int) (request_id : Option Int) : GenState :=
  fun c => if c = chat then some ⟨true, request_id, false⟩ else st c

/-- bot.py `_should_send_results` (lines 107-117). -/
def should_send_results (st : GenState) (chat : Int) (request_id : Option Int) : Bool :=
  match st chat with
  | none => true
  | some r =>
    if r.result_sent then false
    else
      match r.request_id, request_id with
      | some s, some q => if s = q then true else false
      | _, _ => true

/-- bot.py `_mark_results_sent` (lines 120-124): sets `result_sent` to `True`
when a record exists, no-op otherwise. -/
def mark_results_sent (st : GenState) (chat : Int) : GenState :=
  match st chat with
  | none => st
  | some r => fun c => if c = chat then some { r with result_sent := true } else st c

/-- bot.py `_clear_generation_state` (lines 127-129): `state.pop(chat_id, None)`. -/
def clear_generation_state (st : GenState) (chat : Int) : GenState :=
  fun c => if c = chat then none else st c

/-- The admission step of the trigger handlers (`handle_link` lines 655-658 and
682, `handle_ad_type` lines 596-599 and 615): reject when
`_is_generation_active`, otherwise `_register_generation` and accept.
Returns (admitted?, state afterwards). -/
def tryAdmit (st : GenState) (chat : Int) (request_id : Option Int) : Bool × GenState :=
  if is_generation_active st chat then (false, st)
  else (true, register_generation st chat request_id)

/-- Outcome of the body of `_run_campaign_task` (bot.py lines 167-183) up to
the send guard: the VK fetch, campaign generation and persistence calls either
all succeed, or raise `ValueError`, or raise some other exception. -/
inductive TaskOutcome where
  | ok
  | valueError
  | otherError
deriving DecidableEq

/-- bot.py `_run_campaign_task` (lines 157-191) as a transformer of the
generation-state table.  On success the send guard `_should_send_results` is
consulted and `_mark_results_sent` runs when it allows the send; the two
`except` arms only send an error message; the `finally:` arm always runs
`_clear_generation_state`. -/
def run_campaign_task (outcome : TaskOutcome) (st : GenState) (chat : Int)
    (request_id : Option Int) : GenState :=
  let st1 :=
    match outcome with
    | .ok =>
      if should_send_results st chat request_id then mark_results_sent st chat
      else st
    | .valueError => st
    | .otherError => st
  clear_generation_state st1 chat

/-! ## JSON values

Python JSON values (`json.loads` output) are modelled by the mutual inductive
`Json`.  Objects are ordered key/value field lists, mirroring dict insertion
order; numbers are modelled as integers (the pipeline's JSON handling never
depends on float values, and the embedded parser rejects float syntax rather
than misreading it). -/

mutual
inductive Json where
  | null
  | bool (b : Bool)
  | num (n : Int)
  | str (s : List Char)
  | arr (elems : JsonElems)
  | obj (fields : JsonFields)

inductive JsonElems where
  | nil
  | cons (hd : Json) (tl : JsonElems)

inductive JsonFields where
  | nil
  | cons (key : List Char) (val : Json) (tl : JsonFields)
end

mutual
def jdec : (a b : Json) → Decidable (a = b)
  | .null, .null => isTrue rfl
  | .bool a, .bool b =>
    match decEq a b with
    | isTrue h => isTrue (congrArg Json.bool h)
    | isFalse h => isFalse fun hh => h (Json.bool.inj hh)
  | .num a, .num b =>
    match decEq a b with
    | isTrue h => isTrue (congrArg Json.num h)
    | isFalse h => isFalse fun hh => h (Json.num.inj hh)
  | .str a, .str b =>
    match decEq a b with
    | isTrue h => isTrue (congrArg Json.str h)
    | isFalse h => isFalse fun hh => h (Json.str.inj hh)
  | .arr a, .arr b =>
    match edec a b with
    | isTrue h => isTrue (congrArg Json.arr h)
    | isFalse h => isFalse fun hh => h (Json.arr.inj hh)
  | .obj a, .obj b =>
    match fdec a b with
    | isTrue h => isTrue (congrArg Json.obj h)
    | isFalse h => isFalse fun hh => h (Json.obj.inj hh)
  | .null, .bool _ | .null, .num _ | .null, .str _ | .null, .arr _ | .null, .obj _
  | .bool _, .null | .bool _, .num _ | .bool _, .str _ | .bool _, .arr _ | .bool _, .obj _
  | .num _, .null | .num _, .bool _ | .num _, .str _ | .num _, .arr _ | .num _, .obj _
  | .str _, .null | .str _, .bool _ | .str _, .num _ | .str _, .arr _ | .str _, .obj _
  | .arr _, .null | .arr _, .bool _ | .arr _, .num _ | .arr _, .str _ | .arr _, .obj _
  | .obj _, .null | .obj _, .bool _ | .obj _, .num _ | .obj _, .str _ | .obj _, .arr _ =>
    isFalse fun h => nomatch h

def edec : (a b : JsonElems) → Decidable (a = b)
  | .nil, .nil => isTrue rfl
  | .cons a as, .cons b bs =>
    match jdec a b, edec as bs with
    | isTrue h1, isTrue h2 => isTrue (by rw [h1, h2])
    | isFalse h1, _ => isFalse fun hh => h1 (by cases hh; rfl)
    | _, isFalse h2 => isFalse fun hh => h2 (by cases hh; rfl)
  | .nil, .cons _ _ => isFalse fun h => nomatch h
  | .cons _ _, .nil => isFalse fun h => nomatch h

def fdec : (a b : JsonFields) → Decidable (a = b)
  | .nil, .nil => isTrue rfl
  | .cons k a as, .cons k' b bs =>
    match decEq k k', jdec a b, fdec as bs with
    | isTrue h0, isTrue h1, isTrue h2 => isTrue (by rw [h0, h1, h2])
    | isFalse h0, _, _ => isFalse fun hh => h0 (by cases hh; rfl)
    | _, isFalse h1, _ => isFalse fun hh => h1 (by cases hh; rfl)
    | _, _, isFalse h2 => isFalse fun hh => h2 (by cases hh; rfl)
  | .nil, .cons _ _ _ => isFalse fun h => nomatch h
  | .cons _ _ _, .nil => isFalse fun h => nomatch h
end

instance : DecidableEq Json := jdec

instance : DecidableEq JsonElems := edec

instance : DecidableEq JsonFields := fdec

/-- Python truthiness of a JSON-decoded value: `None`, `False`, `0`, `""`,
`[]` and an empty dict are falsy, everything else truthy. -/
def Json.isTruthy : Json → Bool
  | .null => false
  | .bool b => b
  | .num n => decide (n ≠ 0)
  | .str s => !s.isEmpty
  | .arr .nil => false
  | .arr (.cons _ _) => true
  | .obj .nil => false
  | .obj (.cons _ _ _) => true

/-- Python `d.get(key)` on a dict decoded from JSON.  On duplicate keys
`json.loads` keeps the last occurrence, so lookup takes the last match. -/
def getField : JsonFields → List Char → Option Json
  | .nil, _ => none
  | .cons k v tl, key =>
    match getField tl key with
    | some r => some r
    | none => if k = key then some v else none

/-- Python `d[key] = v`: replaces the value at an existing key, otherwise
appends the binding at the end (dict insertion order). -/
def setField : JsonFields → List Char → Json → JsonFields
  | .nil, key, v => .cons key v .nil
  | .cons k w tl, key, v =>
    if k = key then .cons k v tl else .cons k w (setField tl key v)

def elemsToList : JsonElems → List Json
  | .nil => []
  | .cons v tl => v :: elemsToList tl

/-! ## Serialization (model of `json.dumps` with default separators and
`ensure_ascii=False`: escapes `"`, `\`, and control characters, passes all
other characters through) -/

def hexDig (n : Nat) : Char :=
  if n < 10 then Char.ofNat (48 + n) else Char.ofNat (87 + n)

def escChar (c : Char) : List Char :=
  if c = '"' then ['\\', '"']
  else if c = '\\' then ['\\', '\\']
  else if c = '\n' then ['\\', 'n']
  else if c = '\t' then ['\\', 't']
  else if c = '\r' then ['\\', 'r']
  else if c.toNat = 8 then ['\\', 'b']
  else if c.toNat = 12 then ['\\', 'f']
  else if c.toNat < 32 then ['\\', 'u', '0', '0', hexDig (c.toNat / 16), hexDig (c.toNat % 16)]
  else [c]

def escString : List Char → List Char
  | [] => []
  | c :: rest => escChar c ++ escString rest

/-- A serialized JSON string literal: quote, escaped body, quote. -/
def serStr (s : List Char) : List Char := '"' :: escString s ++ ['"']

/-- Decimal digits of a natural number, most significant first; the fuel
argument only bounds the recursion (`n + 1` always suffices, see
`natDigitsAux_stable`). -/
def natDigitsAux : Nat → Nat → List Char
  | 0, _ => []
  | fuel + 1, n =>
    if n < 10 then [Nat.digitChar n]
    else natDigitsAux fuel (n / 10) ++ [Nat.digitChar (n % 10)]

def natDigits (n : Nat) : List Char := natDigitsAux (n + 1) n

/-- Serialization of an integer (model of Python `repr` of an int inside
`json.dumps`). -/
def serInt (n : Int) : List Char :=
  if n < 0 then '-' :: natDigits (-n).toNat else natDigits n.toNat

mutual
def serialize : Json → List Char
  | .null => 'n' :: ['u', 'l', 'l']
  | .bool true => 't' :: ['r', 'u', 'e']
  | .bool false => 'f' :: ['a', 'l', 's', 'e']
  | .num n => serInt n
  | .str s => serStr s
  | .arr l => '[' :: serElemsFirst l
  | .obj l => '{' :: serFieldsFirst l

def serElemsFirst : JsonElems → List Char
  | .nil => [']']
  | .cons v tl => serialize v ++ serElemsRest tl

def serElemsRest : JsonElems → List Char
  | .nil => [']']
  | .cons v tl => ',' :: ' ' :: serialize v ++ serElemsRest tl

def serFieldsFirst : JsonFields → List Char
  | .nil => ['}']
  | .cons k v tl => serStr k ++ ':' :: ' ' :: serialize v ++ serFieldsRest tl

def serFieldsRest : JsonFields → List Char
  | .nil => ['}']
  | .cons k v tl => ',' :: ' ' :: serStr k ++ ':' :: ' ' :: serialize v ++ serFieldsRest tl
end

/-! ## Parsing (model of `json.loads`, restricted to integer numerals; float
syntax after an integer part makes the parse fail rather than misread, and
`\u` escapes for surrogate code points are rejected) -/

/-- JSON whitespace skipped by `json.loads` between tokens. -/
def isJsonWs (c : Char) : Bool := c = ' ' || c = '\t' || c = '\n' || c = '\r'

def skipWs (cs : List Char) : List Char := cs.dropWhile isJsonWs

def hexVal (c : Char) : Option Nat :=
  if 48 ≤ c.toNat ∧ c.toNat ≤ 57 then some (c.toNat - 48)
  else if 97 ≤ c.toNat ∧ c.toNat ≤ 102 then some (c.toNat - 87)
  else if 65 ≤ c.toNat ∧ c.toNat ≤ 70 then some (c.toNat - 55)
  else none

/-- The single-character escapes of JSON strings. -/
def escDecode (c : Char) : Option Char :=
  if c = '"' then some '"'
  else if c = '\\' then some '\\'
  else if c = '/' then some '/'
  else if c = 'n' then some '\n'
  else if c = 't' then some '\t'
  else if c = 'r' then some '\r'
  else if c = 'b' then some (Char.ofNat 8)
  else if c = 'f' then some (Char.ofNat 12)
  else none

/-- Body of a JSON string literal after the opening quote: returns the decoded
characters and the remainder after the closing quote.  Raw control characters
are rejected (strict mode of `json.loads`). -/
def parseStringBody : List Char → Option (List Char × List Char)
  | [] => none
  | c :: rest =>
    if c = '"' then some ([], rest)
    else if c = '\\' then
      match rest with
      | [] => none
      | e :: rest2 =>
        if e = 'u' then
          match rest2 with
          | h1 :: h2 :: h3 :: h4 :: rest3 =>
            match hexVal h1, hexVal h2, hexVal h3, hexVal h4 with
            | some a, some b, some c3, some d =>
              let v := ((a * 16 + b) * 16 + c3) * 16 + d
              if 55296 ≤ v ∧ v < 57344 then none
              else
                match parseStringBody rest3 with
                | some (s, r) => some (Char.ofNat v :: s, r)
                | none => none
            | _, _, _, _ => none
          | _ => none
        else
          match escDecode e with
          | some c2 =>
            match parseStringBody rest2 with
            | some (s, r) => some (c2 :: s, r)
            | none => none
          | none => none
    else if c.toNat < 32 then none
    else
      match parseStringBody rest with
      | some (s, r) => some (c :: s, r)
      | none => none

def digitsToNat (ds : List Char) : Nat :=
  ds.foldl (fun a c => a * 10 + (c.toNat - 48)) 0

/-- `true` when a `.`/`e`/`E` follows, i.e. the numeral continues as a float
(not modelled: the parse fails there instead of misreading). -/
def floatFollows : List Char → Bool
  | [] => false
  | c :: _ => c = '.' || c = 'e' || c = 'E'

def parseDigits (cs : List Char) : Option (Nat × List Char) :=
  let ds := cs.takeWhile Char.isDigit
  let rest := cs.dropWhile Char.isDigit
  if ds.isEmpty then none
  else if ds.headD 'x' = '0' ∧ 1 < ds.length then none
  else if floatFollows rest then none
  else some (digitsToNat ds, rest)

def parseNumber : List Char → Option (Json × List Char)
  | [] => none
  | c :: rest =>
    if c = '-' then
      match parseDigits rest with
      | some (n, r) => some (.num (-(n : Int)), r)
      | none => none
    else
      match parseDigits (c :: rest) with
      | some (n, r) => some (.num (n : Int), r)
      | none => none

/-- The characters that may legally follow a serialized integer without
extending the numeral: anything except a digit or a float continuation. -/
def noNumContinuation : List Char → Bool
  | [] => true
  | c :: _ => !(c.isDigit || c = '.' || c = 'e' || c = 'E')

mutual
def parseValue : Nat → List Char → Option (Json × List Char)
  | 0, _ => none
  | fuel + 1, cs =>
    match cs with
    | 'n' :: 'u' :: 'l' :: 'l' :: rest => some (.null, rest)
    | 't' :: 'r' :: 'u' :: 'e' :: rest => some (.bool true, rest)
    | 'f' :: 'a' :: 'l' :: 's' :: 'e' :: rest => some (.bool false, rest)
    | '"' :: rest =>
      match parseStringBody rest with
      | some (s, r) => some (.str s, r)
      | none => none
    | '[' :: rest =>
      match parseElems fuel (skipWs rest) with
      | some (l, r) => some (.arr l, r)
      | none => none
    | '{' :: rest =>
      match parseFields fuel (skipWs rest) with
      | some (l, r) => some (.obj l, r)
      | none => none
    | _ => parseNumber cs

def parseElems : Nat → List Char → Option (JsonElems × List Char)
  | 0, _ => none
  | fuel + 1, cs =>
    match cs with
    | ']' :: rest => some (.nil, rest)
    | _ =>
      match parseValue fuel cs with
      | some (v, r) =>
        match parseElemsTail fuel (skipWs r) with
        | some (l, r2) => some (.cons v l, r2)
        | none => none
      | none => none

def parseElemsTail : Nat → List Char → Option (JsonElems × List Char)
  | 0, _ => none
  | fuel + 1, cs =>
    match cs with
    | ']' :: rest => some (.nil, rest)
    | ',' :: rest =>
      match parseValue fuel (skipWs rest) with
      | some (v, r) =>
        match parseElemsTail fuel (skipWs r) with
        | some (l, r2) => some (.cons v l, r2)
        | none => none
      | none => none
    | _ => none

def parseFields : Nat → List Char → Option (JsonFields × List Char)
  | 0, _ => none
  | fuel + 1, cs =>
    match cs with
    | '}' :: rest => some (.nil, rest)
    | _ =>
      match parseMember fuel cs with
      | some (k, v, r) =>
        match parseFieldsTail fuel (skipWs r) with
        | some (l, r2) => some (.cons k v l, r2)
        | none => none
      | none => none

def parseFieldsTail : Nat → List Char → Option (JsonFields × List Char)
  | 0, _ => none
  | fuel + 1, cs =>
    match cs with
    | '}' :: rest => some (.nil, rest)
    | ',' :: rest =>
      match parseMember fuel (skipWs rest) with
      | some (k, v, r) =>
        match parseFieldsTail fuel (skipWs r) with
        | some (l, r2) => some (.cons k v l, r2)
        | none => none
      | none => none
    | _ => none

def parseMember : Nat → List Char → Option (List Char × Json × List Char)
  | 0, _ => none
  | fuel + 1, cs =>
    match cs with
    | '"' :: rest =>
      match parseStringBody rest with
      | some (k, r) =>
        match skipWs r with
        | ':' :: r2 =>
          match parseValue fuel (skipWs r2) with
          | some (v, r3) => some (k, v, r3)
          | none => none
        | _ => none
      | none => none
    | _ => none
end

/-- Model of `json.loads`: a complete JSON document, whitespace allowed around
the value, nothing else trailing.  The fuel `2 * length + 2` dominates the
recursion depth of any parse (each two fuel steps consume at least one input
character). -/
def json_loads (cs : List Char) : Option Json :=
  match parseValue (2 * cs.length + 2) (skipWs cs) with
  | some (v, rest) => if (skipWs rest).isEmpty then some v else none
  | none => none

/-! ## Brace-span scanning and extraction (llm_client.py lines 90-127) -/

/-- Whitespace stripped by Python `str.strip()` (ASCII part). -/
def isPyWs (c : Char) : Bool :=
  c = ' ' || c = '\t' || c = '\n' || c = '\r' || c = Char.ofNat 11 || c = Char.ofNat 12

/-- Python `text.strip()`. -/
def pyStrip (cs : List Char) : List Char :=
  ((cs.dropWhile isPyWs).reverse.dropWhile isPyWs).reverse

/-- Index of the first `'{'`, i.e. Python `text.find("{", i)` relative to the
suffix. -/
def findOpenBrace : List Char → Option Nat
  | [] => none
  | c :: rest => if c = '{' then some 0 else (findOpenBrace rest).map (· + 1)

/-- The inner loop of `_find_json_objects` (llm_client.py lines 100-107):
walk forward maintaining a depth counter that increments on `'{'` and
decrements on `'}'`, and stop just after depth first returns to zero.
Returns the number of characters consumed. -/
def braceScan : List Char → Int → Option Nat
  | [], _ => none
  | c :: rest, depth =>
    if c = '{' then (braceScan rest (depth + 1)).map (· + 1)
    else if c = '}' then
      if depth - 1 = 0 then some 1
      else (braceScan rest (depth - 1)).map (· + 1)
    else (braceScan rest depth).map (· + 1)

/-- The outer loop of `_find_json_objects` (llm_client.py lines 93-112): from
position `i`, find the next `'{'`; if the depth scan closes, record the span
and resume at its end, else resume one past the opening brace.  The fuel only
bounds the iteration count (the position strictly increases each round, so
`length + 1` always suffices, see `findSpansF_stable`). -/
def findSpansF : Nat → List Char → Nat → List (Nat × Nat)
  | 0, _, _ => []
  | fuel + 1, cs, i =>
    match findOpenBrace (cs.drop i) with
    | none => []
    | some off =>
      match braceScan (cs.drop (i + off)) 0 with
      | some len => (i + off, i + off + len) :: findSpansF fuel cs (i + off + len)
      | none => findSpansF fuel cs (i + off + 1)

/-- llm_client.py `_find_json_objects` (lines 90-113): strips its input and
collects the balanced-brace spans left to right. -/
def find_json_objects (cs : List Char) : List (Nat × Nat) :=
  findSpansF ((pyStrip cs).length + 1) (pyStrip cs) 0

/-- The `for start, end in reversed(spans)` loop of `extract_json_from_text`
(llm_client.py lines 121-126): try each chunk as JSON, return the first that
parses. -/
def tryChunks (text : List Char) : List (Nat × Nat) → Except String Json
  | [] => .error "No valid JSON object found in response"
  | (s, e) :: rest =>
    match json_loads ((text.drop s).take (e - s)) with
    | some j => .ok j
    | none => tryChunks text rest

instance {ε α : Type} [DecidableEq ε] [DecidableEq α] : DecidableEq (Except ε α) := fun a b =>
  match a, b with
  | .ok x, .ok y =>
    match decEq x y with
    | isTrue h => isTrue (by rw [h])
    | isFalse h => isFalse fun hh => h (by cases hh; rfl)
  | .error x, .error y =>
    match decEq x y with
    | isTrue h => isTrue (by rw [h])
    | isFalse h => isFalse fun hh => h (by cases hh; rfl)
  | .ok _, .error _ => isFalse fun h => nomatch h
  | .error _, .ok _ => isFalse fun h => nomatch h

/-- llm_client.py `extract_json_from_text` (lines 116-127). -/
def extract_json_from_text (cs : List Char) : Except String Json :=
  let text := pyStrip cs
  let spans := find_json_objects text
  if spans.isEmpty then .error "JSON object not found in response"
  else tryChunks text spans.reverse

/-! ## Size and brace-freedom measures on JSON values -/

mutual
def jsize : Json → Nat
  | .null => 1
  | .bool _ => 1
  | .num _ => 1
  | .str _ => 1
  | .arr l => esize l + 1
  | .obj l => fsize l + 1

def esize : JsonElems → Nat
  | .nil => 1
  | .cons v tl => jsize v + esize tl + 1

def fsize : JsonFields → Nat
  | .nil => 1
  | .cons _ v tl => jsize v + fsize tl + 1
end

def strNoBrace (s : List Char) : Bool := s.all fun c => !(c = '{' || c = '}')

/- No string (key or value) anywhere in the JSON value contains a curly
brace.  The naive brace scanner of `_find_json_objects` is exact on the
serialization of such values. -/
mutual
def braceFree : Json → Bool
  | .null => true
  | .bool _ => true
  | .num _ => true
  | .str s => strNoBrace s
  | .arr l => braceFreeElems l
  | .obj l => braceFreeFields l

def braceFreeElems : JsonElems → Bool
  | .nil => true
  | .cons v tl => braceFree v && braceFreeElems tl

def braceFreeFields : JsonFields → Bool
  | .nil => true
  | .cons k v tl => strNoBrace k && braceFree v && braceFreeFields tl
end

/-! ## Message chunking (bot.py `_send_campaign`, the repeated
`while start < len(block)` slicing loops, e.g. lines 375-382) -/

def MESSAGE_LIMIT : Nat := 4096

def CAPTION_LIMIT : Nat := 1024

/-- The slicing loop: `start = 0; while start < len(part): send
part[start : start + MESSAGE_LIMIT]; start += MESSAGE_LIMIT`.  Returns the
texts passed to `send_message`, in call order. -/
def sendLoop (s : List Char) (start : Nat) : List (List Char) :=
  if start < s.length then
    (s.drop start).take MESSAGE_LIMIT :: sendLoop s (start + MESSAGE_LIMIT)
  else []
termination_by s.length - start
decreasing_by simp [MESSAGE_LIMIT]; omega

/-- Sending one text block in `_send_campaign`: blocks over the limit go
through the slicing loop, others are sent in one message. -/
def sendBlock (s : List Char) : List (List Char) :=
  if MESSAGE_LIMIT < s.length then sendLoop s 0 else [s]

/-! ## Pipeline stage models (campaign_generator.py) -/

def adsKey : List Char := ['a', 'd', 's']

/-- The post-extraction `ads` handling of `_step2_ads`
(campaign_generator.py lines 92-94):
`ads = data.get("ads") or []` and then
`if not isinstance(ads, list): ads = [ads] if ads else []`. -/
def step2_ads_of (data : JsonFields) : List Json :=
  let got : Json :=
    match getField data adsKey with
    | some v => v
    | none => .null
  let ads : Json := if got.isTruthy then got else .arr .nil
  match ads with
  | .arr l => elemsToList l
  | v => if v.isTruthy then [v] else []

def vkCampaignKey : List Char := ['v', 'k', '_', 'c', 'a', 'm', 'p', 'a', 'i', 'g', 'n']

def projectSummaryKey : List Char :=
  ['p', 'r', 'o', 'j', 'e', 'c', 't', '_', 's', 'u', 'm', 'm', 'a', 'r', 'y']

def keywordsKey : List Char := ['k', 'e', 'y', 'w', 'o', 'r', 'd', 's']

def defaultCampaignName : List Char := ['К', 'а', 'м', 'п', 'а', 'н', 'и', 'я']

def takeElems : Nat → JsonElems → JsonElems
  | 0, _ => .nil
  | _, .nil => .nil
  | n + 1, .cons v tl => .cons v (takeElems n tl)

/-- Python `x[:80]`: defined for strings and lists, a `TypeError` otherwise
(`.error ()`). -/
def pySlice80 : Json → Except Unit Json
  | .str s => .ok (.str (s.take 80))
  | .arr l => .ok (.arr (takeElems 80 l))
  | _ => .error ()

/-- The synthesized `vk_campaign` defaults dict of `_step1_analysis`
(campaign_generator.py lines 62-74), with the computed campaign name. -/
def defaultVkCampaign (campaign_name : Json) : JsonFields :=
  .cons ['c', 'a', 'm', 'p', 'a', 'i', 'g', 'n', '_', 'n', 'a', 'm', 'e'] campaign_name
    (.cons ['b', 'u', 'd', 'g', 'e', 't', '_', 'd', 'a', 'i', 'l', 'y', '_', 'r', 'u', 'b'] (.num 500)
      (.cons ['b', 'u', 'd', 'g', 'e', 't', '_', 't', 'o', 't', 'a', 'l', '_', 'r', 'u', 'b'] (.num 10000)
        (.cons ['l', 'i', 'n', 'k', '_', 'u', 'r', 'l']
            (.str ['h', 't', 't', 'p', 's', ':', '/', '/', 'v', 'k', '.', 'c', 'o', 'm'])
          (.cons ['b', 'i', 'd', '_', 't', 'y', 'p', 'e'] (.str ['c', 'p', 'c'])
            (.cons ['b', 'i', 'd', '_', 'r', 'u', 'b'] (.num 15)
              (.cons ['a', 'g', 'e', '_', 'f', 'r', 'o', 'm'] (.num 18)
                (.cons ['a', 'g', 'e', '_', 't', 'o'] (.num 55)
                  (.cons ['c', 'o', 'u', 'n', 't', 'r', 'y'] (.str ['1'])
                    (.cons ['r', 'e', 'g', 'i', 'o', 'n', '_', 'i', 'd', 's'] (.str ['1', ',', '7', '7'])
                      (.cons ['i', 'n', 't', 'e', 'r', 'e', 's', 't', '_', 'i', 'd', 's'] (.str [])
                        .nil))))))))))

/-- The post-extraction `vk_campaign` fixup of `_step1_analysis`
(campaign_generator.py lines 61-74): when `out.get("vk_campaign")` is falsy,
install the defaults dict, whose campaign name is
`out.get("project_summary", "Кампания")[:80] or "Кампания"` — the slice
raises `TypeError` on a non-sliceable value (`.error ()`). -/
def step1_vk_fixup (out : JsonFields) : Except Unit JsonFields :=
  let vk : Json :=
    match getField out vkCampaignKey with
    | some v => v
    | none => .null
  if vk.isTruthy then .ok out
  else
    let ps : Json :=
      match getField out projectSummaryKey with
      | some v => v
      | none => .str defaultCampaignName
    match pySlice80 ps with
    | .error _ => .error ()
    | .ok sliced =>
      let cname := if sliced.isTruthy then sliced else .str defaultCampaignName
      .ok (setField out vkCampaignKey (.obj (defaultVkCampaign cname)))

/-- The `campaign_name` expression of campaign_generator.py line 63,
`out.get("project_summary", "Кампания")[:80] or "Кампания"`, with the default
name when the slice would raise. -/
def step1CampaignName (out : JsonFields) : Json :=
  let ps : Json :=
    match getField out projectSummaryKey with
    | some v => v
    | none => .str defaultCampaignName
  match pySlice80 ps with
  | .ok sliced => if sliced.isTruthy then sliced else .str defaultCampaignName
  | .error _ => .str defaultCampaignName

/-! ## Campaign generation and the per-variant image loop
(campaign_generator.py `generate_campaign`, lines 112-165; models.py
`AdVariant` / `CampaignDraft`) -/

/-- models.py `AdVariant`.  The textual fields come straight from the ad dict
(Python performs no type check), so they are JSON values; `image_prompt` is
the stripped free text of `_step3_image_prompt`. -/
structure AdVariant where
  segment_name : Json
  headline : Json
  body_text : Json
  cta : Json
  visual_concept : Json
  image_prompt_short : Json
  image_prompt : List Char
  image_path : Option (List Char)
deriving DecidableEq

/-- The fields of models.py `CampaignDraft` that `generate_campaign` fills. -/
structure CampaignDraft where
  analysis_result : JsonFields
  ads : List AdVariant
  keywords : Json

/-- Python `a or b` on JSON values. -/
def pyOr (a b : Json) : Json := if a.isTruthy then a else b

/-- Python `d.get(k)`: `None` when absent. -/
def getD (d : JsonFields) (k : List Char) : Json :=
  match getField d k with
  | some v => v
  | none => .null

/-- Construction of one `AdVariant` from a raw ad dict
(campaign_generator.py lines 119-138). -/
def mkAdVariant (a : JsonFields) (prompt : List Char) : AdVariant :=
  { segment_name := pyOr (getD a ['s', 'e', 'g', 'm', 'e', 'n', 't', '_', 'n', 'a', 'm', 'e'])
      (.str ['А', 'у', 'д', 'и', 'т', 'о', 'р', 'и', 'я'])
  , headline := pyOr (getD a ['h', 'e', 'a', 'd', 'l', 'i', 'n', 'e']) (.str [])
  , body_text := pyOr (getD a ['b', 'o', 'd', 'y', '_', 't', 'e', 'x', 't']) (.str [])
  , cta := pyOr (getD a ['c', 't', 'a']) (.str [])
  , visual_concept := pyOr (getD a ['v', 'i', 's', 'u', 'a', 'l', '_', 'c', 'o', 'n', 'c', 'e', 'p', 't']) (.str [])
  , image_prompt_short :=
      pyOr (getD a ['i', 'm', 'a', 'g', 'e', '_', 'p', 'r', 'o', 'm', 'p', 't', '_', 's', 'h', 'o', 'r', 't']) (.str [])
  , image_prompt := prompt
  , image_path := none }

/-- Outcome of `generate_image` for the i-th variant: an exception
(`.error ()`), a falsy / non-existing path (`.ok none`), or a saved image
path (`.ok (some p)`). -/
def ImageOutcome : Type := Nat → Except Unit (Option (List Char))

/-- The per-variant image loop of `generate_campaign`
(campaign_generator.py lines 140-158): variants with an empty prompt are
skipped; an exception from `generate_image` is caught, logged and only that
variant's image is skipped; a saved path is written onto the variant. -/
def applyImages (img : ImageOutcome) (ads : List AdVariant) : List AdVariant :=
  ads.enum.map fun p =>
    if p.2.image_prompt.isEmpty then p.2
    else
      match img p.1 with
      | .error _ => p.2
      | .ok none => p.2
      | .ok (some path) => { p.2 with image_path := some path }

/-- campaign_generator.py `generate_campaign` (lines 112-165) after the two
LLM stages: builds the variants from the raw ads (the i-th image prompt is
the external LLM's reply, an oracle argument), runs the image loop when an
image-service key is configured, and assembles the draft. -/
def generate_campaign (analysis_result : JsonFields) (ads_raw : List JsonFields)
    (prompts : Nat → List Char) (have_image_key : Bool) (img : ImageOutcome) :
    CampaignDraft :=
  let ad_variants := ads_raw.enum.map fun p => mkAdVariant p.2 (prompts p.1)
  let final_ads := if have_image_key then applyImages img ad_variants else ad_variants
  { analysis_result := analysis_result
  , ads := final_ads
  , keywords := pyOr (getD analysis_result keywordsKey) (.arr .nil) }

/-! ## Photo delivery with retries (bot.py `_send_campaign`, lines 335-364) -/

def PHOTO_SEND_RETRIES : Nat := 3

/-- Modelled in whole time units (bot.py has `PHOTO_SEND_RETRY_DELAY = 3.0`
seconds). -/
def PHOTO_SEND_RETRY_DELAY : Nat := 3

/-- One observable transport action of the per-ad delivery code. -/
inductive TgEvent where
  | photoAttempt
  | sleep (units : Nat)
  | message (text : List Char)
deriving DecidableEq

/-- The retry loop `for attempt in range(1, PHOTO_SEND_RETRIES + 1)`
(bot.py lines 344-353): try `send_photo`; on success break with
`last_error = None`; on failure remember the error and, when attempts
remain, sleep `PHOTO_SEND_RETRY_DELAY`.  `remaining` counts the attempts
still allowed including the current one.  Returns the emitted events and
whether the loop ended with `last_error is None`. -/
def retryGo (success : Nat → Bool) : Nat → Nat → List TgEvent × Bool
  | 0, _ => ([], false)
  | remaining + 1, attempt =>
    if success attempt then ([.photoAttempt], true)
    else if remaining = 0 then ([.photoAttempt], false)
    else
      let next := retryGo success remaining (attempt + 1)
      (.photoAttempt :: .sleep PHOTO_SEND_RETRY_DELAY :: next.1, next.2)

def retryLoop (success : Nat → Bool) : List TgEvent × Bool :=
  retryGo success PHOTO_SEND_RETRIES 1

/-- The chunked text send of one block, as events. -/
def textBlockEvents (block : List Char) : List TgEvent :=
  (sendBlock block).map TgEvent.message

/-- Delivery of one ad's block in `_send_campaign` (bot.py lines 335-382):
when the ad has an image path, prepare the photo (`prep = none` models a
`_prepare_photo_for_telegram` exception; empty bytes are falsy), run the
retry loop, and on a terminal failure send the *full block* as a single
fallback message; on success — and on every path without usable photo
bytes — the block goes through the normal chunked text send.  Returns the
events and whether the fallback branch (`last_error is not None`) ran. -/
def deliverAdBlock (has_image : Bool) (prep : Option (List Nat))
    (success : Nat → Bool) (block : List Char) : List TgEvent × Bool :=
  if has_image then
    match prep with
    | some bytes =>
      if bytes.isEmpty then (textBlockEvents block, false)
      else
        let r := retryLoop success
        if r.2 then (r.1 ++ textBlockEvents block, false)
        else (r.1 ++ [.message block], true)
    | none => (textBlockEvents block, false)
  else (textBlockEvents block, false)

/-! ## Theorems -/

/-! ### List and digit utilities -/

theorem splitWhile_append_all (p : Char → Bool) (xs ys : List Char)
    (hall : ∀ x ∈ xs, p x = true) (hys : ∀ c, ys.head? = some c → p c = false) :
    (xs ++ ys).takeWhile p = xs ∧ (xs ++ ys).dropWhile p = ys := by
  induction xs with
  | nil =>
    simp only [List.nil_append]
    cases ys with
    | nil => simp
    | cons c t =>
      have := hys c rfl
      simp [List.takeWhile_cons, List.dropWhile_cons, this]
  | cons x xs ih =>
    have hx : p x = true := hall x (by simp)
    have ihh := ih fun a ha => hall a (by simp [ha])
    simp [List.takeWhile_cons, List.dropWhile_cons, hx, ihh.1, ihh.2]

theorem natDigitsAux_stable : ∀ (n f : Nat), n < f → natDigitsAux f n = natDigits n
  | n, f + 1, h => by
    unfold natDigits natDigitsAux
    by_cases h10 : n < 10
    · simp [h10]
    · simp only [h10, if_false]
      have hdiv : n / 10 < n := Nat.div_lt_self (by omega) (by omega)
      rw [natDigitsAux_stable (n / 10) f (by omega),
        natDigitsAux_stable (n / 10) n hdiv]

theorem natDigits_lt10 (n : Nat) (h : n < 10) : natDigits n = [Nat.digitChar n] := by
  unfold natDigits natDigitsAux
  simp [h]

theorem natDigits_ge10 (n : Nat) (h : 10 ≤ n) :
    natDigits n = natDigits (n / 10) ++ [Nat.digitChar (n % 10)] := by
  conv_lhs => unfold natDigits natDigitsAux
  have h10 : ¬ n < 10 := by omega
  simp only [h10, if_false]
  rw [natDigitsAux_stable (n / 10) n (Nat.div_lt_self (by omega) (by omega))]

theorem digitChar_isDigit (d : Nat) (h : d < 10) : (Nat.digitChar d).isDigit = true := by
  interval_cases d <;> decide

theorem digitChar_toNat (d : Nat) (h : d < 10) : (Nat.digitChar d).toNat = 48 + d := by
  interval_cases d <;> decide

theorem natDigits_ne_nil (n : Nat) : natDigits n ≠ [] := by
  by_cases h : n < 10
  · rw [natDigits_lt10 n h]; simp
  · rw [natDigits_ge10 n (by omega)]; simp

theorem natDigits_all_isDigit : ∀ n : Nat, ∀ c ∈ natDigits n, c.isDigit = true
  | n => by
    by_cases h : n < 10
    · rw [natDigits_lt10 n h]
      intro c hc
      simp only [List.mem_singleton] at hc
      subst hc
      exact digitChar_isDigit n h
    · rw [natDigits_ge10 n (by omega)]
      intro c hc
      rcases List.mem_append.mp hc with h2 | h2
      · exact natDigits_all_isDigit (n / 10) c h2
      · simp only [List.mem_singleton] at h2
        subst h2
        exact digitChar_isDigit (n % 10) (Nat.mod_lt n (by omega))
termination_by n => n
decreasing_by exact Nat.div_lt_self (by omega) (by omega)

theorem natDigits_head_zero : ∀ n : Nat, (natDigits n).headD 'x' = '0' → n = 0
  | n => by
    by_cases h : n < 10
    · intro hc
      rw [natDigits_lt10 n h] at hc
      by_contra hne0
      have h1 : 1 ≤ n := by omega
      interval_cases n <;> exact absurd hc (by decide)
    · rw [natDigits_ge10 n (by omega)]
      intro hc
      have hne := natDigits_ne_nil (n / 10)
      cases hd : natDigits (n / 10) with
      | nil => exact absurd hd hne
      | cons a t =>
        rw [hd] at hc
        simp only [List.cons_append, List.headD_cons] at hc
        have := natDigits_head_zero (n / 10) (by rw [hd]; simpa using hc)
        omega
termination_by n => n
decreasing_by exact Nat.div_lt_self (by omega) (by omega)

theorem digitsToNat_append_one (xs : List Char) (c : Char) :
    digitsToNat (xs ++ [c]) = digitsToNat xs * 10 + (c.toNat - 48) := by
  unfold digitsToNat
  rw [List.foldl_append]
  rfl

theorem digitsToNat_natDigits : ∀ n : Nat, digitsToNat (natDigits n) = n
  | n => by
    by_cases h : n < 10
    · rw [natDigits_lt10 n h]
      show digitsToNat [Nat.digitChar n] = n
      unfold digitsToNat
      simp only [List.foldl_cons, List.foldl_nil, digitChar_toNat n h]
      omega
    · rw [natDigits_ge10 n (by omega), digitsToNat_append_one,
        digitsToNat_natDigits (n / 10), digitChar_toNat (n % 10) (Nat.mod_lt n (by omega))]
      omega
termination_by n => n
decreasing_by exact Nat.div_lt_self (by omega) (by omega)

theorem noNumCont_facts (rest : List Char) (h : noNumContinuation rest = true) :
    floatFollows rest = false ∧ (∀ c, rest.head? = some c → c.isDigit = false) := by
  cases rest with
  | nil => exact ⟨rfl, fun c hc => by simp at hc⟩
  | cons a t =>
    simp only [noNumContinuation, Bool.not_eq_true'] at h
    rcases Bool.or_eq_false_iff.mp h with ⟨h1, hE⟩
    rcases Bool.or_eq_false_iff.mp h1 with ⟨h2, he⟩
    rcases Bool.or_eq_false_iff.mp h2 with ⟨hd, hdot⟩
    constructor
    · simp only [floatFollows]
      simp only [decide_eq_false_iff_not] at hdot he hE
      simp [hdot, he, hE]
    · intro c hc
      simp only [List.head?_cons, Option.some_inj] at hc
      subst hc
      exact hd

theorem parseDigits_natDigits (n : Nat) (rest : List Char)
    (hrest : noNumContinuation rest = true) :
    parseDigits (natDigits n ++ rest) = some (n, rest) := by
  have hfacts := noNumCont_facts rest hrest
  have hsplit := splitWhile_append_all Char.isDigit (natDigits n) rest
    (natDigits_all_isDigit n) (fun c hc => hfacts.2 c hc)
  unfold parseDigits
  rw [hsplit.1, hsplit.2]
  have hne := natDigits_ne_nil n
  have hA : ¬ ((natDigits n).isEmpty = true) := by
    cases hll : natDigits n with
    | nil => exact absurd hll hne
    | cons a t => simp
  rw [if_neg hA, if_neg ?hB, if_neg (by rw [hfacts.1]; simp), digitsToNat_natDigits]
  case hB =>
    rintro ⟨hz, hlen⟩
    have h0 := natDigits_head_zero n hz
    subst h0
    rw [natDigits_lt10 0 (by omega)] at hlen
    simp at hlen

/-- C1: for every recipient key, when a record with `active = true` exists,
admission returns `false` and the trigger is rejected; when no such record
exists, admission installs `{active: true, request_id, result_sent: false}` via
`_register_generation` and returns `true`; hence a `tryAdmit` that returned
`true` makes a second `tryAdmit` for the same key return `false` until the
record is released. -/
theorem tryAdmit_spec (st : GenState) (chat : Int) (c1 c2 : Option Int) :
    ((∃ r, st chat = some r ∧ r.active = true) → (tryAdmit st chat c1).1 = false) ∧
    ((¬ ∃ r, st chat = some r ∧ r.active = true) →
      tryAdmit st chat c1 = (true, register_generation st chat c1) ∧
      (tryAdmit st chat c1).2 chat = some ⟨true, c1, false⟩) ∧
    ((tryAdmit st chat c1).1 = true →
      (tryAdmit (tryAdmit st chat c1).2 chat c2).1 = false) := by
  have hact : is_generation_active st chat = true ↔
      ∃ r, st chat = some r ∧ r.active = true := by
    unfold is_generation_active
    cases hst : st chat with
    | none => simp
    | some r => simp [hst]
  refine ⟨?_, ?_, ?_⟩
  · intro h
    have : is_generation_active st chat = true := hact.mpr h
    simp [tryAdmit, this]
  · intro h
    have : is_generation_active st chat = false := by
      cases hb : is_generation_active st chat with
      | false => rfl
      | true => exact absurd (hact.mp hb) h
    refine ⟨by simp [tryAdmit, this], ?_⟩
    simp [tryAdmit, this, register_generation]
  · intro h
    have hfirst : is_generation_active st chat = false := by
      cases hb : is_generation_active st chat with
      | false => rfl
      | true => simp [tryAdmit, hb] at h
    simp only [tryAdmit, hfirst, Bool.false_eq_true, if_false]
    simp [is_generation_active, register_generation]

/-- Witness for C1 at a concrete empty table: the first admission succeeds and
the second admission for the same chat is rejected. -/
theorem tryAdmit_spec_witness :
    (tryAdmit (fun _ => none) 5 (some 1)).1 = true ∧
    (tryAdmit (tryAdmit (fun _ => none) 5 (some 1)).2 5 (some 2)).1 = false :=
  ⟨rfl, (tryAdmit_spec (fun _ => none) 5 (some 1) (some 2)).2.2 rfl⟩

/-- C2: the delivery gate `_should_send_results` is fail-open when no record
exists; returns `false` once `result_sent` is set (in particular after
`_mark_results_sent` on an existing record); returns `false` when the stored
and passed request ids are both non-null and differ; and returns `true` in
every other case. -/
theorem should_send_results_spec (st : GenState) (chat : Int) (rid : Option Int) :
    (st chat = none → should_send_results st chat rid = true) ∧
    (∀ r, st chat = some r → r.result_sent = true →
      should_send_results st chat rid = false) ∧
    (∀ r, st chat = some r →
      should_send_results (mark_results_sent st chat) chat rid = false) ∧
    (∀ r, st chat = some r → (∃ s, r.request_id = some s) → (∃ q, rid = some q) →
      r.request_id ≠ rid → should_send_results st chat rid = false) ∧
    (∀ r, st chat = some r → r.result_sent = false →
      (∀ s q, r.request_id = some s → rid = some q → s = q) →
      should_send_results st chat rid = true) := by
  refine ⟨?_, ?_, ?_, ?_, ?_⟩
  · intro h; simp [should_send_results, h]
  · intro r hst hsent; simp [should_send_results, hst, hsent]
  · intro r hst
    have hmark : mark_results_sent st chat chat = some { r with result_sent := true } := by
      simp [mark_results_sent, hst]
    simp [should_send_results, hmark]
  · rintro r hst ⟨s, hs⟩ ⟨q, hq⟩ hne
    have hsq : s ≠ q := by
      intro h; exact hne (by rw [hs, hq, h])
    cases hsent : r.result_sent with
    | true => simp [should_send_results, hst, hsent]
    | false => simp [should_send_results, hst, hsent, hs, hq, hsq]
  · intro r hst hsent hagree
    simp only [should_send_results, hst, hsent, if_false, Bool.false_eq_true]
    cases hs : r.request_id with
    | none => simp
    | some s =>
      cases hq : rid with
      | none => simp
      | some q =>
        have := hagree s q hs hq
        simp [this]

/-- Witness for C2 at concrete states: fail-open on the empty table, `false`
after `_mark_results_sent`, `false` on a request-id mismatch, `true` on a
match. -/
theorem should_send_results_spec_witness :
    should_send_results (fun _ => none) 7 (some 3) = true ∧
    should_send_results
      (mark_results_sent (fun c => if c = 7 then some ⟨true, some 3, false⟩ else none) 7)
      7 (some 3) = false ∧
    should_send_results (fun c => if c = 7 then some ⟨true, some 3, false⟩ else none)
      7 (some 4) = false ∧
    should_send_results (fun c => if c = 7 then some ⟨true, some 3, false⟩ else none)
      7 (some 3) = true := by
  refine ⟨(should_send_results_spec (fun _ => none) 7 (some 3)).1 rfl, ?_, ?_, ?_⟩
  · exact (should_send_results_spec _ 7 (some 3)).2.2.1 ⟨true, some 3, false⟩ (by simp)
  · exact (should_send_results_spec _ 7 (some 4)).2.2.2.1 ⟨true, some 3, false⟩
      (by simp) ⟨3, rfl⟩ ⟨4, rfl⟩ (by simp)
  · exact (should_send_results_spec _ 7 (some 3)).2.2.2.2 ⟨true, some 3, false⟩
      (by simp) rfl (by intro s q hs hq; injection hs with h1; injection hq with h2; omega)

theorem natDigits_head_shape : ∀ n : Nat, ∃ d, d < 10 ∧ ∃ t, natDigits n = Nat.digitChar d :: t
  | n => by
    by_cases h : n < 10
    · exact ⟨n, h, [], natDigits_lt10 n h⟩
    · obtain ⟨d, hd, t, ht⟩ := natDigits_head_shape (n / 10)
      refine ⟨d, hd, t ++ [Nat.digitChar (n % 10)], ?_⟩
      rw [natDigits_ge10 n (by omega), ht]
      simp
termination_by n => n
decreasing_by exact Nat.div_lt_self (by omega) (by omega)

theorem serInt_nonneg (n : Int) (h : 0 ≤ n) : serInt n = natDigits n.toNat := by
  unfold serInt
  rw [if_neg (by omega)]

theorem serInt_neg (n : Int) (h : n < 0) : serInt n = '-' :: natDigits (-n).toNat := by
  unfold serInt
  rw [if_pos h]

theorem parseNumber_serInt (n : Int) (rest : List Char)
    (hrest : noNumContinuation rest = true) :
    parseNumber (serInt n ++ rest) = some (.num n, rest) := by
  by_cases hn : n < 0
  · rw [serInt_neg n hn]
    simp only [List.cons_append, parseNumber, if_pos rfl]
    rw [parseDigits_natDigits _ rest hrest]
    simp only [Int.toNat_eq_max]
    simp
    omega
  · have h0 : 0 ≤ n := by omega
    rw [serInt_nonneg n h0]
    obtain ⟨d, hd, t, ht⟩ := natDigits_head_shape n.toNat
    rw [ht]
    simp only [List.cons_append, parseNumber]
    rw [if_neg (show ¬ Nat.digitChar d = '-' by interval_cases d <;> decide),
      show Nat.digitChar d :: (t ++ rest) = (Nat.digitChar d :: t) ++ rest from rfl, ← ht,
      parseDigits_natDigits n.toNat rest hrest]
    simp [Int.toNat_of_nonneg h0]

theorem hexVal_hexDig (d : Nat) (h : d < 16) : hexVal (hexDig d) = some d := by
  interval_cases d <;> decide

theorem parseStringBody_escString : ∀ (s rest : List Char),
    parseStringBody (escString s ++ '"' :: rest) = some (s, rest)
  | [], rest => by
    simp only [escString, List.nil_append]
    unfold parseStringBody
    simp
  | c :: s, rest => by
    have ih := parseStringBody_escString s rest
    by_cases h1 : c = '"'
    · subst h1
      simp only [escString, escChar, if_pos rfl, List.cons_append, List.nil_append,
        List.append_assoc]
      unfold parseStringBody
      simp [escDecode, ih]
    by_cases h2 : c = '\\'
    · subst h2
      simp only [escString, escChar, if_neg h1, if_pos rfl, List.cons_append,
        List.nil_append, List.append_assoc]
      unfold parseStringBody
      simp [escDecode, ih]
    by_cases h3 : c = '\n'
    · subst h3
      simp only [escString, escChar, if_neg h1, if_neg h2, if_pos rfl, List.cons_append,
        List.nil_append, List.append_assoc]
      unfold parseStringBody
      simp [escDecode, ih]
    by_cases h4 : c = '\t'
    · subst h4
      simp only [escString, escChar, if_neg h1, if_neg h2, if_neg h3, if_pos rfl,
        List.cons_append, List.nil_append, List.append_assoc]
      unfold parseStringBody
      simp [escDecode, ih]
    by_cases h5 : c = '\r'
    · subst h5
      simp only [escString, escChar, if_neg h1, if_neg h2, if_neg h3, if_neg h4, if_pos rfl,
        List.cons_append, List.nil_append, List.append_assoc]
      unfold parseStringBody
      simp [escDecode, ih]
    by_cases h6 : c.toNat = 8
    · simp only [escString, escChar, if_neg h1, if_neg h2, if_neg h3, if_neg h4, if_neg h5,
        if_pos h6, List.cons_append, List.nil_append, List.append_assoc]
      unfold parseStringBody
      have hc : Char.ofNat 8 = c := by
        rw [← h6, Char.ofNat_toNat]
      simp [escDecode, ih]
      exact hc
    by_cases h7 : c.toNat = 12
    · simp only [escString, escChar, if_neg h1, if_neg h2, if_neg h3, if_neg h4, if_neg h5,
        if_neg h6, if_pos h7, List.cons_append, List.nil_append, List.append_assoc]
      unfold parseStringBody
      have hc : Char.ofNat 12 = c := by
        rw [← h7, Char.ofNat_toNat]
      simp [escDecode, ih]
      exact hc
    by_cases h8 : c.toNat < 32
    · have hhi : hexVal (hexDig (c.toNat / 16)) = some (c.toNat / 16) :=
        hexVal_hexDig _ (by omega)
      have hlo : hexVal (hexDig (c.toNat % 16)) = some (c.toNat % 16) :=
        hexVal_hexDig _ (by omega)
      have h0 : hexVal '0' = some 0 := by decide
      simp only [escString, escChar, if_neg h1, if_neg h2, if_neg h3, if_neg h4, if_neg h5,
        if_neg h6, if_neg h7, if_pos h8, List.cons_append, List.nil_append, List.append_assoc]
      unfold parseStringBody
      rw [if_neg (show ¬ '\\' = '"' by decide), if_pos rfl]
      simp only [h0, hhi, hlo, if_true]
      rw [if_neg (by omega)]
      have hv2 : Char.ofNat (c.toNat / 16 * 16 + c.toNat % 16) = c := by
        have hv : c.toNat / 16 * 16 + c.toNat % 16 = c.toNat := by omega
        rw [hv, Char.ofNat_toNat]
      simp [ih, hv2]
    · simp only [escString, escChar, if_neg h1, if_neg h2, if_neg h3, if_neg h4, if_neg h5,
        if_neg h6, if_neg h7, if_neg h8, List.cons_append, List.nil_append, List.append_assoc]
      unfold parseStringBody
      rw [if_neg h1, if_neg h2, if_neg h8, ih]

/-! ### Serialization head shapes and whitespace -/

theorem skipWs_cons_of_not_ws (c : Char) (t : List Char) (h : isJsonWs c = false) :
    skipWs (c :: t) = c :: t := by
  simp [skipWs, List.dropWhile_cons, h]

theorem skipWs_space (t : List Char) : skipWs (' ' :: t) = skipWs t := by
  simp [skipWs, List.dropWhile_cons, show isJsonWs ' ' = true from rfl]

theorem skipWs_colon (t : List Char) : skipWs (':' :: t) = ':' :: t :=
  skipWs_cons_of_not_ws ':' t (by decide)

theorem skipWs_quote (t : List Char) : skipWs ('"' :: t) = '"' :: t :=
  skipWs_cons_of_not_ws '"' t (by decide)

theorem serialize_head : ∀ v : Json, ∃ c t, serialize v = c :: t ∧ isJsonWs c = false ∧
    c ≠ ']' ∧ c ≠ '}' ∧ c ≠ ',' ∧ c ≠ ':'
  | .null => ⟨'n', _, rfl, by decide, by decide, by decide, by decide, by decide⟩
  | .bool true => ⟨'t', _, rfl, by decide, by decide, by decide, by decide, by decide⟩
  | .bool false => ⟨'f', _, rfl, by decide, by decide, by decide, by decide, by decide⟩
  | .num n => by
    by_cases hn : n < 0
    · refine ⟨'-', natDigits (-n).toNat ++ [], ?_, by decide, by decide, by decide,
        by decide, by decide⟩
      show serInt n = _
      rw [serInt_neg n hn]
      simp
    · obtain ⟨d, hd, t, ht⟩ := natDigits_head_shape n.toNat
      refine ⟨Nat.digitChar d, t, ?_, ?_, ?_, ?_, ?_, ?_⟩
      · show serInt n = _
        rw [serInt_nonneg n (by omega), ht]
      · interval_cases d <;> decide
      · interval_cases d <;> decide
      · interval_cases d <;> decide
      · interval_cases d <;> decide
      · interval_cases d <;> decide
  | .str s => ⟨'"', _, rfl, by decide, by decide, by decide, by decide, by decide⟩
  | .arr l => ⟨'[', _, rfl, by decide, by decide, by decide, by decide, by decide⟩
  | .obj l => ⟨'{', _, rfl, by decide, by decide, by decide, by decide, by decide⟩

theorem skipWs_serialize_append (v : Json) (rest : List Char) :
    skipWs (serialize v ++ rest) = serialize v ++ rest := by
  obtain ⟨c, t, hct, hws, -, -, -, -⟩ := serialize_head v
  rw [hct, List.cons_append, skipWs_cons_of_not_ws c _ hws]

theorem skipWs_serElemsFirst : ∀ (l : JsonElems) (rest : List Char),
    skipWs (serElemsFirst l ++ rest) = serElemsFirst l ++ rest
  | .nil, rest => skipWs_cons_of_not_ws ']' rest (by decide)
  | .cons v tl, rest => by
    simp only [serElemsFirst, List.append_assoc]
    exact skipWs_serialize_append v _

theorem skipWs_serElemsRest : ∀ (l : JsonElems) (rest : List Char),
    skipWs (serElemsRest l ++ rest) = serElemsRest l ++ rest
  | .nil, rest => skipWs_cons_of_not_ws ']' rest (by decide)
  | .cons v tl, rest => skipWs_cons_of_not_ws ',' _ (by decide)

theorem skipWs_serFieldsFirst : ∀ (l : JsonFields) (rest : List Char),
    skipWs (serFieldsFirst l ++ rest) = serFieldsFirst l ++ rest
  | .nil, rest => skipWs_cons_of_not_ws '}' rest (by decide)
  | .cons k v tl, rest => skipWs_cons_of_not_ws '"' _ (by decide)

theorem skipWs_serFieldsRest : ∀ (l : JsonFields) (rest : List Char),
    skipWs (serFieldsRest l ++ rest) = serFieldsRest l ++ rest
  | .nil, rest => skipWs_cons_of_not_ws '}' rest (by decide)
  | .cons k v tl, rest => skipWs_cons_of_not_ws ',' _ (by decide)

theorem noNumCont_serElemsRest : ∀ (l : JsonElems) (rest : List Char),
    noNumContinuation (serElemsRest l ++ rest) = true
  | .nil, _ => rfl
  | .cons _ _, _ => rfl

theorem noNumCont_serFieldsRest : ∀ (l : JsonFields) (rest : List Char),
    noNumContinuation (serFieldsRest l ++ rest) = true
  | .nil, _ => rfl
  | .cons _ _ _, _ => rfl

/-! ### Parser round trip over serialization -/

theorem jsize_pos : ∀ v : Json, 1 ≤ jsize v
  | .null => by simp [jsize]
  | .bool _ => by simp [jsize]
  | .num _ => by simp [jsize]
  | .str _ => by simp [jsize]
  | .arr l => by simp [jsize]
  | .obj l => by simp [jsize]

theorem esize_pos : ∀ l : JsonElems, 1 ≤ esize l
  | .nil => by simp [esize]
  | .cons v tl => by simp [esize]

theorem fsize_pos : ∀ l : JsonFields, 1 ≤ fsize l
  | .nil => by simp [fsize]
  | .cons k v tl => by simp [fsize]

theorem serInt_head (n : Int) : ∃ c t, serInt n = c :: t ∧ c ≠ 'n' ∧ c ≠ 't' ∧ c ≠ 'f' ∧
    c ≠ '"' ∧ c ≠ '[' ∧ c ≠ '{' := by
  by_cases hn : n < 0
  · exact ⟨'-', _, serInt_neg n hn, by decide, by decide, by decide, by decide, by decide,
      by decide⟩
  · obtain ⟨d, hd, t, ht⟩ := natDigits_head_shape n.toNat
    refine ⟨Nat.digitChar d, t, ?_, ?_, ?_, ?_, ?_, ?_, ?_⟩
    · rw [serInt_nonneg n (by omega), ht]
    · interval_cases d <;> decide
    · interval_cases d <;> decide
    · interval_cases d <;> decide
    · interval_cases d <;> decide
    · interval_cases d <;> decide
    · interval_cases d <;> decide

theorem parseValue_fallthrough (f : Nat) (c : Char) (t : List Char)
    (h1 : c ≠ 'n') (h2 : c ≠ 't') (h3 : c ≠ 'f') (h4 : c ≠ '"') (h5 : c ≠ '[')
    (h6 : c ≠ '{') :
    parseValue (f + 1) (c :: t) = parseNumber (c :: t) := by
  unfold parseValue
  split
  · rename_i heq
    injection heq with hc _
    exact absurd hc h1
  · rename_i heq
    injection heq with hc _
    exact absurd hc h2
  · rename_i heq
    injection heq with hc _
    exact absurd hc h3
  · rename_i heq
    injection heq with hc _
    exact absurd hc h4
  · rename_i heq
    injection heq with hc _
    exact absurd hc h5
  · rename_i heq
    injection heq with hc _
    exact absurd hc h6
  · rfl

theorem parseElems_step (f : Nat) (c : Char) (t : List Char) (hne : c ≠ ']') :
    parseElems (f + 1) (c :: t) =
      (match parseValue f (c :: t) with
      | some (v, r) =>
        match parseElemsTail f (skipWs r) with
        | some (l, r2) => some (JsonElems.cons v l, r2)
        | none => none
      | none => none) := by
  unfold parseElems
  split
  · rename_i heq
    injection heq with hc _
    exact absurd hc hne
  · rfl

mutual

theorem rt_value : ∀ (v : Json) (rest : List Char) (f : Nat), jsize v ≤ f →
    noNumContinuation rest = true →
    parseValue f (serialize v ++ rest) = some (v, rest)
  | .null, rest, f, hf, _ => by
    cases f with
    | zero => exact absurd hf (by simp [jsize])
    | succ g =>
      unfold parseValue
      simp [serialize]
  | .bool true, rest, f, hf, _ => by
    cases f with
    | zero => exact absurd hf (by simp [jsize])
    | succ g =>
      unfold parseValue
      simp [serialize]
  | .bool false, rest, f, hf, _ => by
    cases f with
    | zero => exact absurd hf (by simp [jsize])
    | succ g =>
      unfold parseValue
      simp [serialize]
  | .num n, rest, f, hf, hr => by
    cases f with
    | zero => exact absurd hf (by simp [jsize])
    | succ g =>
      obtain ⟨c, t, hct, h1, h2, h3, h4, h5, h6⟩ := serInt_head n
      show parseValue (g + 1) (serInt n ++ rest) = _
      rw [hct, List.cons_append,
        parseValue_fallthrough g c (t ++ rest) h1 h2 h3 h4 h5 h6,
        ← List.cons_append, ← hct]
      exact parseNumber_serInt n rest hr
  | .str s, rest, f, hf, _ => by
    cases f with
    | zero => exact absurd hf (by simp [jsize])
    | succ g =>
      show parseValue (g + 1) (serStr s ++ rest) = _
      simp only [serStr, List.cons_append, List.append_assoc, List.singleton_append,
        List.nil_append]
      unfold parseValue
      simp [parseStringBody_escString s rest]
  | .arr l, rest, f, hf, _ => by
    cases f with
    | zero => exact absurd hf (by simp [jsize])
    | succ g =>
      have hsz : esize l ≤ g := by
        simp only [jsize] at hf
        omega
      show parseValue (g + 1) (('[' :: serElemsFirst l) ++ rest) = _
      simp only [List.cons_append]
      unfold parseValue
      simp [skipWs_serElemsFirst l rest, rt_elemsFirst l rest g hsz]
  | .obj l, rest, f, hf, _ => by
    cases f with
    | zero => exact absurd hf (by simp [jsize])
    | succ g =>
      have hsz : fsize l ≤ g := by
        simp only [jsize] at hf
        omega
      show parseValue (g + 1) (('{' :: serFieldsFirst l) ++ rest) = _
      simp only [List.cons_append]
      unfold parseValue
      simp [skipWs_serFieldsFirst l rest, rt_fieldsFirst l rest g hsz]

theorem rt_elemsFirst : ∀ (l : JsonElems) (rest : List Char) (f : Nat), esize l ≤ f →
    parseElems f (serElemsFirst l ++ rest) = some (l, rest)
  | .nil, rest, f, hf => by
    cases f with
    | zero => exact absurd hf (by simp [esize])
    | succ g =>
      unfold parseElems
      simp [serElemsFirst]
  | .cons v tl, rest, f, hf => by
    cases f with
    | zero => exact absurd hf (by simp [esize])
    | succ g =>
      have hv : jsize v ≤ g := by
        have := esize_pos tl
        simp only [esize] at hf
        omega
      have htl : esize tl ≤ g := by
        have := jsize_pos v
        simp only [esize] at hf
        omega
      obtain ⟨c, t, hct, -, hne, -, -, -⟩ := serialize_head v
      show parseElems (g + 1) ((serialize v ++ serElemsRest tl) ++ rest) = _
      rw [List.append_assoc, hct, List.cons_append,
        parseElems_step g c (t ++ (serElemsRest tl ++ rest)) hne,
        ← List.cons_append, ← hct]
      simp [rt_value v (serElemsRest tl ++ rest) g hv (noNumCont_serElemsRest tl rest),
        skipWs_serElemsRest tl rest, rt_elemsRest tl rest g htl]

theorem rt_elemsRest : ∀ (l : JsonElems) (rest : List Char) (f : Nat), esize l ≤ f →
    parseElemsTail f (serElemsRest l ++ rest) = some (l, rest)
  | .nil, rest, f, hf => by
    cases f with
    | zero => exact absurd hf (by simp [esize])
    | succ g =>
      unfold parseElemsTail
      simp [serElemsRest]
  | .cons v tl, rest, f, hf => by
    cases f with
    | zero => exact absurd hf (by simp [esize])
    | succ g =>
      have hv : jsize v ≤ g := by
        have := esize_pos tl
        simp only [esize] at hf
        omega
      have htl : esize tl ≤ g := by
        have := jsize_pos v
        simp only [esize] at hf
        omega
      show parseElemsTail (g + 1) ((',' :: ' ' :: serialize v ++ serElemsRest tl) ++ rest) = _
      simp only [List.cons_append, List.append_assoc]
      unfold parseElemsTail
      simp [skipWs_space, skipWs_serialize_append,
        rt_value v (serElemsRest tl ++ rest) g hv (noNumCont_serElemsRest tl rest),
        skipWs_serElemsRest tl rest, rt_elemsRest tl rest g htl]

theorem rt_member : ∀ (k : List Char) (v : Json) (rest2 : List Char) (h : Nat),
    jsize v ≤ h → noNumContinuation rest2 = true →
    parseMember (h + 1)
      ('"' :: (escString k ++ '"' :: ':' :: ' ' :: (serialize v ++ rest2))) =
      some (k, v, rest2)
  | k, v, rest2, h, hv, hr => by
    unfold parseMember
    simp [parseStringBody_escString k (':' :: ' ' :: (serialize v ++ rest2)),
      skipWs_colon, skipWs_space, skipWs_serialize_append, rt_value v rest2 h hv hr]

theorem rt_fieldsFirst : ∀ (l : JsonFields) (rest : List Char) (f : Nat), fsize l ≤ f →
    parseFields f (serFieldsFirst l ++ rest) = some (l, rest)
  | .nil, rest, f, hf => by
    cases f with
    | zero => exact absurd hf (by simp [fsize])
    | succ g =>
      unfold parseFields
      simp [serFieldsFirst]
  | .cons k v tl, rest, f, hf => by
    cases f with
    | zero => exact absurd hf (by simp [fsize])
    | succ g =>
      have hv : jsize v + 1 ≤ g := by
        have := fsize_pos tl
        simp only [fsize] at hf
        omega
      have htl : fsize tl ≤ g := by
        have := jsize_pos v
        simp only [fsize] at hf
        omega
      obtain ⟨h, rfl⟩ : ∃ h, g = h + 1 := ⟨g - 1, by omega⟩
      show parseFields (h + 1 + 1)
        ((serStr k ++ ':' :: ' ' :: serialize v ++ serFieldsRest tl) ++ rest) = _
      simp only [serStr, List.cons_append, List.append_assoc, List.singleton_append,
        List.nil_append]
      unfold parseFields
      simp [rt_member k v (serFieldsRest tl ++ rest) h (by omega)
          (noNumCont_serFieldsRest tl rest),
        skipWs_serFieldsRest tl rest, rt_fieldsRest tl rest (h + 1) htl]

theorem rt_fieldsRest : ∀ (l : JsonFields) (rest : List Char) (f : Nat), fsize l ≤ f →
    parseFieldsTail f (serFieldsRest l ++ rest) = some (l, rest)
  | .nil, rest, f, hf => by
    cases f with
    | zero => exact absurd hf (by simp [fsize])
    | succ g =>
      unfold parseFieldsTail
      simp [serFieldsRest]
  | .cons k v tl, rest, f, hf => by
    cases f with
    | zero => exact absurd hf (by simp [fsize])
    | succ g =>
      have hv : jsize v + 1 ≤ g := by
        have := fsize_pos tl
        simp only [fsize] at hf
        omega
      have htl : fsize tl ≤ g := by
        have := jsize_pos v
        simp only [fsize] at hf
        omega
      obtain ⟨h, rfl⟩ : ∃ h, g = h + 1 := ⟨g - 1, by omega⟩
      show parseFieldsTail (h + 1 + 1)
        ((',' :: ' ' :: serStr k ++ ':' :: ' ' :: serialize v ++ serFieldsRest tl) ++ rest) = _
      simp only [serStr, List.cons_append, List.append_assoc, List.singleton_append,
        List.nil_append]
      unfold parseFieldsTail
      simp [skipWs_space, skipWs_quote,
        rt_member k v (serFieldsRest tl ++ rest) h (by omega)
          (noNumCont_serFieldsRest tl rest),
        skipWs_serFieldsRest tl rest, rt_fieldsRest tl rest (h + 1) htl]

end

theorem serInt_length_pos (n : Int) : 1 ≤ (serInt n).length := by
  by_cases hn : n < 0
  · rw [serInt_neg n hn]
    simp
  · rw [serInt_nonneg n (by omega)]
    have := natDigits_ne_nil n.toNat
    cases h : natDigits n.toNat with
    | nil => exact absurd h this
    | cons a t => simp [h]

mutual

theorem jsize_le : ∀ v : Json, jsize v ≤ 2 * (serialize v).length
  | .null => by simp [jsize, serialize]
  | .bool true => by simp [jsize, serialize]
  | .bool false => by simp [jsize, serialize]
  | .num n => by
    have := serInt_length_pos n
    show jsize (.num n) ≤ 2 * (serInt n).length
    simp only [jsize]
    omega
  | .str s => by
    show jsize (.str s) ≤ 2 * (serStr s).length
    simp only [jsize, serStr, List.length_cons, List.length_append]
    omega
  | .arr l => by
    have := esizeFirst_le l
    show jsize (.arr l) ≤ 2 * ('[' :: serElemsFirst l).length
    simp only [jsize, List.length_cons]
    omega
  | .obj l => by
    have := fsizeFirst_le l
    show jsize (.obj l) ≤ 2 * ('{' :: serFieldsFirst l).length
    simp only [jsize, List.length_cons]
    omega

theorem esizeFirst_le : ∀ l : JsonElems, esize l ≤ 2 * (serElemsFirst l).length
  | .nil => by simp [esize, serElemsFirst]
  | .cons v tl => by
    have h1 := jsize_le v
    have h2 := esizeRest_le tl
    show esize (.cons v tl) ≤ 2 * (serialize v ++ serElemsRest tl).length
    simp only [esize, List.length_append]
    omega

theorem esizeRest_le : ∀ l : JsonElems, esize l + 1 ≤ 2 * (serElemsRest l).length
  | .nil => by simp [esize, serElemsRest]
  | .cons v tl => by
    have h1 := jsize_le v
    have h2 := esizeRest_le tl
    show esize (.cons v tl) + 1 ≤ 2 * (',' :: ' ' :: serialize v ++ serElemsRest tl).length
    simp only [esize, List.length_cons, List.length_append]
    omega

theorem fsizeFirst_le : ∀ l : JsonFields, fsize l ≤ 2 * (serFieldsFirst l).length
  | .nil => by simp [fsize, serFieldsFirst]
  | .cons k v tl => by
    have h1 := jsize_le v
    have h2 := fsizeRest_le tl
    show fsize (.cons k v tl) ≤
      2 * (serStr k ++ ':' :: ' ' :: serialize v ++ serFieldsRest tl).length
    simp only [fsize, List.length_append, List.length_cons]
    omega

theorem fsizeRest_le : ∀ l : JsonFields, fsize l + 1 ≤ 2 * (serFieldsRest l).length
  | .nil => by simp [fsize, serFieldsRest]
  | .cons k v tl => by
    have h1 := jsize_le v
    have h2 := fsizeRest_le tl
    show fsize (.cons k v tl) + 1 ≤
      2 * (',' :: ' ' :: serStr k ++ ':' :: ' ' :: serialize v ++ serFieldsRest tl).length
    simp only [fsize, List.length_append, List.length_cons]
    omega

end

/-- `json.loads` inverts serialization on every JSON value. -/
theorem json_loads_serialize (v : Json) : json_loads (serialize v) = some v := by
  unfold json_loads
  have hskip : skipWs (serialize v) = serialize v := by
    have := skipWs_serialize_append v []
    simpa using this
  rw [hskip]
  have hrt := rt_value v [] (2 * (serialize v).length + 2)
    (by have := jsize_le v; omega) rfl
  rw [List.append_nil] at hrt
  rw [hrt]
  simp [skipWs]

/-! ### Brace scanning over serializations -/

theorem braceScan_open (rest : List Char) (d : Int) :
    braceScan ('{' :: rest) d = (braceScan rest (d + 1)).map (· + 1) := by
  conv_lhs => unfold braceScan
  simp

theorem braceScan_close_stop (rest : List Char) (d : Int) (h : d - 1 = 0) :
    braceScan ('}' :: rest) d = some 1 := by
  unfold braceScan
  simp [h]

theorem braceScan_close_pass (rest : List Char) (d : Int) (h : ¬ d - 1 = 0) :
    braceScan ('}' :: rest) d = (braceScan rest (d - 1)).map (· + 1) := by
  conv_lhs => unfold braceScan
  simp [h]

theorem braceScan_other (c : Char) (rest : List Char) (d : Int) (h1 : ¬ c = '{')
    (h2 : ¬ c = '}') : braceScan (c :: rest) d = (braceScan rest d).map (· + 1) := by
  conv_lhs => unfold braceScan
  simp [h1, h2]

theorem map_add_comp (o : Option Nat) (a b : Nat) :
    (o.map (· + a)).map (· + b) = o.map (· + (a + b)) := by
  cases o <;> simp [Nat.add_assoc]

theorem braceScan_nb : ∀ (xs : List Char), (∀ c ∈ xs, ¬ c = '{' ∧ ¬ c = '}') →
    ∀ (rest : List Char) (d : Int),
    braceScan (xs ++ rest) d = (braceScan rest d).map (· + xs.length)
  | [], _, rest, d => by
    cases h : braceScan rest d <;> simp [h]
  | c :: xs, hnb, rest, d => by
    have hc := hnb c (by simp)
    rw [List.cons_append, braceScan_other c _ d hc.1 hc.2,
      braceScan_nb xs (fun a ha => hnb a (by simp [ha])) rest d, map_add_comp]
    simp

theorem isDigit_no_brace (c : Char) (h : c.isDigit = true) : ¬ c = '{' ∧ ¬ c = '}' := by
  constructor <;> intro hh <;> subst hh <;> exact absurd h (by decide)

theorem serInt_no_brace (n : Int) : ∀ c ∈ serInt n, ¬ c = '{' ∧ ¬ c = '}' := by
  intro c hc
  by_cases hn : n < 0
  · rw [serInt_neg n hn] at hc
    rcases List.mem_cons.mp hc with h | h
    · subst h
      exact ⟨by decide, by decide⟩
    · exact isDigit_no_brace c (natDigits_all_isDigit _ c h)
  · rw [serInt_nonneg n (by omega)] at hc
    exact isDigit_no_brace c (natDigits_all_isDigit _ c hc)

theorem hexDig_no_brace (m : Nat) (h : m < 16) : ¬ hexDig m = '{' ∧ ¬ hexDig m = '}' := by
  constructor <;> (interval_cases m <;> decide)

theorem escChar_no_brace (c : Char) (h1 : ¬ c = '{') (h2 : ¬ c = '}') :
    ∀ x ∈ escChar c, ¬ x = '{' ∧ ¬ x = '}' := by
  intro x hx
  unfold escChar at hx
  split_ifs at hx with e1 e2 e3 e4 e5 e6 e7 e8
  · rcases List.mem_cons.mp hx with h | h
    · subst h; exact ⟨by decide, by decide⟩
    · simp only [List.mem_singleton] at h; subst h; exact ⟨by decide, by decide⟩
  · rcases List.mem_cons.mp hx with h | h
    · subst h; exact ⟨by decide, by decide⟩
    · simp only [List.mem_singleton] at h; subst h; exact ⟨by decide, by decide⟩
  · rcases List.mem_cons.mp hx with h | h
    · subst h; exact ⟨by decide, by decide⟩
    · simp only [List.mem_singleton] at h; subst h; exact ⟨by decide, by decide⟩
  · rcases List.mem_cons.mp hx with h | h
    · subst h; exact ⟨by decide, by decide⟩
    · simp only [List.mem_singleton] at h; subst h; exact ⟨by decide, by decide⟩
  · rcases List.mem_cons.mp hx with h | h
    · subst h; exact ⟨by decide, by decide⟩
    · simp only [List.mem_singleton] at h; subst h; exact ⟨by decide, by decide⟩
  · rcases List.mem_cons.mp hx with h | h
    · subst h; exact ⟨by decide, by decide⟩
    · simp only [List.mem_singleton] at h; subst h; exact ⟨by decide, by decide⟩
  · rcases List.mem_cons.mp hx with h | h
    · subst h; exact ⟨by decide, by decide⟩
    · simp only [List.mem_singleton] at h; subst h; exact ⟨by decide, by decide⟩
  · simp only [List.mem_cons, List.not_mem_nil, or_false] at hx
    rcases hx with h | h | h | h | h | h
    · subst h; exact ⟨by decide, by decide⟩
    · subst h; exact ⟨by decide, by decide⟩
    · subst h; exact ⟨by decide, by decide⟩
    · subst h; exact ⟨by decide, by decide⟩
    · subst h; exact hexDig_no_brace _ (by omega)
    · subst h; exact hexDig_no_brace _ (by omega)
  · simp only [List.mem_singleton] at hx
    subst hx
    exact ⟨h1, h2⟩

theorem escString_no_brace : ∀ (s : List Char), strNoBrace s = true →
    ∀ x ∈ escString s, ¬ x = '{' ∧ ¬ x = '}'
  | [], _, x, hx => by simp [escString] at hx
  | c :: s, h, x, hx => by
    have hall := h
    simp only [strNoBrace, List.all_cons, Bool.and_eq_true] at hall
    have hc : ¬ c = '{' ∧ ¬ c = '}' := by
      have := hall.1
      simp only [Bool.not_eq_true', Bool.or_eq_false_iff, decide_eq_false_iff_not] at this
      exact this
    simp only [escString] at hx
    rcases List.mem_append.mp hx with h2 | h2
    · exact escChar_no_brace c hc.1 hc.2 x h2
    · exact escString_no_brace s hall.2 x h2

theorem serStr_no_brace (s : List Char) (h : strNoBrace s = true) :
    ∀ x ∈ serStr s, ¬ x = '{' ∧ ¬ x = '}' := by
  intro x hx
  simp only [serStr, List.mem_cons, List.mem_append, List.not_mem_nil, or_false] at hx
  rcases hx with (h2 | h2) | h2
  · subst h2; exact ⟨by decide, by decide⟩
  · exact escString_no_brace s h x h2
  · subst h2; exact ⟨by decide, by decide⟩

mutual

theorem braceThrough_v : ∀ (v : Json), braceFree v = true → ∀ (rest : List Char) (d : Int),
    1 ≤ d → braceScan (serialize v ++ rest) d = (braceScan rest d).map (· + (serialize v).length)
  | .null, _, rest, d, _ => braceScan_nb ['n', 'u', 'l', 'l'] (by decide) rest d
  | .bool true, _, rest, d, _ => braceScan_nb ['t', 'r', 'u', 'e'] (by decide) rest d
  | .bool false, _, rest, d, _ => braceScan_nb ['f', 'a', 'l', 's', 'e'] (by decide) rest d
  | .num n, _, rest, d, _ => braceScan_nb (serInt n) (serInt_no_brace n) rest d
  | .str s, h, rest, d, _ => braceScan_nb (serStr s) (serStr_no_brace s h) rest d
  | .arr l, h, rest, d, hd => by
    show braceScan (('[' :: serElemsFirst l) ++ rest) d = _
    rw [List.cons_append, braceScan_other '[' _ d (by decide) (by decide),
      braceThrough_ef l h rest d hd, map_add_comp]
    simp only [serialize, serElemsFirst, serElemsRest, serFieldsFirst, serFieldsRest,
      List.length_cons, List.length_append]
  | .obj l, h, rest, d, hd => by
    show braceScan (('{' :: serFieldsFirst l) ++ rest) d = _
    rw [List.cons_append, braceScan_open, braceThrough_ff l h rest (d + 1) (by omega)]
    have hd1 : d + 1 - 1 = d := by ring
    rw [hd1, map_add_comp]
    simp only [serialize, serElemsFirst, serElemsRest, serFieldsFirst, serFieldsRest,
      List.length_cons, List.length_append]

theorem braceThrough_ef : ∀ (l : JsonElems), braceFreeElems l = true →
    ∀ (rest : List Char) (d : Int), 1 ≤ d →
    braceScan (serElemsFirst l ++ rest) d =
      (braceScan rest d).map (· + (serElemsFirst l).length)
  | .nil, _, rest, d, _ => braceScan_nb [']'] (by decide) rest d
  | .cons v tl, h, rest, d, hd => by
    have hh : braceFree v = true ∧ braceFreeElems tl = true := by
      simpa [braceFreeElems] using h
    show braceScan ((serialize v ++ serElemsRest tl) ++ rest) d = _
    rw [List.append_assoc, braceThrough_v v hh.1 _ d hd, braceThrough_er tl hh.2 rest d hd,
      map_add_comp]
    simp only [serialize, serElemsFirst, serElemsRest, serFieldsFirst, serFieldsRest,
      List.length_cons, List.length_append]
    cases braceScan rest d with
    | none => rfl
    | some kk =>
      simp only [Option.map_some']
      congr 1
      omega

theorem braceThrough_er : ∀ (l : JsonElems), braceFreeElems l = true →
    ∀ (rest : List Char) (d : Int), 1 ≤ d →
    braceScan (serElemsRest l ++ rest) d =
      (braceScan rest d).map (· + (serElemsRest l).length)
  | .nil, _, rest, d, _ => braceScan_nb [']'] (by decide) rest d
  | .cons v tl, h, rest, d, hd => by
    have hh : braceFree v = true ∧ braceFreeElems tl = true := by
      simpa [braceFreeElems] using h
    show braceScan ((',' :: ' ' :: serialize v ++ serElemsRest tl) ++ rest) d = _
    simp only [List.cons_append, List.append_assoc]
    rw [braceScan_other ',' _ d (by decide) (by decide),
      braceScan_other ' ' _ d (by decide) (by decide),
      braceThrough_v v hh.1 _ d hd, braceThrough_er tl hh.2 rest d hd,
      map_add_comp, map_add_comp, map_add_comp]
    simp only [serialize, serElemsFirst, serElemsRest, serFieldsFirst, serFieldsRest,
      List.length_cons, List.length_append]
    cases braceScan rest d with
    | none => rfl
    | some kk =>
      simp only [Option.map_some']
      congr 1
      omega

theorem braceThrough_ff : ∀ (l : JsonFields), braceFreeFields l = true →
    ∀ (rest : List Char) (e : Int), 2 ≤ e →
    braceScan (serFieldsFirst l ++ rest) e =
      (braceScan rest (e - 1)).map (· + (serFieldsFirst l).length)
  | .nil, _, rest, e, he => by
    show braceScan (['}'] ++ rest) e = _
    rw [List.singleton_append, braceScan_close_pass rest e (by omega)]
    rfl
  | .cons k v tl, h, rest, e, he => by
    have hh : strNoBrace k = true ∧ braceFree v = true ∧ braceFreeFields tl = true := by
      simpa [braceFreeFields, and_assoc] using h
    show braceScan ((serStr k ++ ':' :: ' ' :: serialize v ++ serFieldsRest tl) ++ rest) e = _
    simp only [List.cons_append, List.append_assoc]
    rw [braceScan_nb (serStr k) (serStr_no_brace k hh.1) _ e,
      braceScan_other ':' _ e (by decide) (by decide),
      braceScan_other ' ' _ e (by decide) (by decide),
      braceThrough_v v hh.2.1 _ e (by omega),
      braceThrough_fr tl hh.2.2 rest e he,
      map_add_comp, map_add_comp, map_add_comp, map_add_comp]
    simp only [serialize, serElemsFirst, serElemsRest, serFieldsFirst, serFieldsRest,
      serStr, List.length_cons, List.length_append]
    cases braceScan rest (e - 1) with
    | none => rfl
    | some kk =>
      simp only [Option.map_some']
      congr 1
      omega

theorem braceThrough_fr : ∀ (l : JsonFields), braceFreeFields l = true →
    ∀ (rest : List Char) (e : Int), 2 ≤ e →
    braceScan (serFieldsRest l ++ rest) e =
      (braceScan rest (e - 1)).map (· + (serFieldsRest l).length)
  | .nil, _, rest, e, he => by
    show braceScan (['}'] ++ rest) e = _
    rw [List.singleton_append, braceScan_close_pass rest e (by omega)]
    rfl
  | .cons k v tl, h, rest, e, he => by
    have hh : strNoBrace k = true ∧ braceFree v = true ∧ braceFreeFields tl = true := by
      simpa [braceFreeFields, and_assoc] using h
    show braceScan ((',' :: ' ' :: serStr k ++ ':' :: ' ' :: serialize v ++ serFieldsRest tl)
      ++ rest) e = _
    simp only [List.cons_append, List.append_assoc]
    rw [braceScan_other ',' _ e (by decide) (by decide),
      braceScan_other ' ' _ e (by decide) (by decide),
      braceScan_nb (serStr k) (serStr_no_brace k hh.1) _ e,
      braceScan_other ':' _ e (by decide) (by decide),
      braceScan_other ' ' _ e (by decide) (by decide),
      braceThrough_v v hh.2.1 _ e (by omega),
      braceThrough_fr tl hh.2.2 rest e he,
      map_add_comp, map_add_comp, map_add_comp, map_add_comp, map_add_comp, map_add_comp]
    simp only [serialize, serElemsFirst, serElemsRest, serFieldsFirst, serFieldsRest,
      serStr, List.length_cons, List.length_append]
    cases braceScan rest (e - 1) with
    | none => rfl
    | some kk =>
      simp only [Option.map_some']
      congr 1
      omega

end

theorem braceStop_fr : ∀ (l : JsonFields), braceFreeFields l = true → ∀ (rest : List Char),
    braceScan (serFieldsRest l ++ rest) 1 = some (serFieldsRest l).length
  | .nil, _, rest => by
    show braceScan (['}'] ++ rest) 1 = _
    rw [List.singleton_append, braceScan_close_stop rest 1 (by ring)]
    rfl
  | .cons k v tl, h, rest => by
    have hh : strNoBrace k = true ∧ braceFree v = true ∧ braceFreeFields tl = true := by
      simpa [braceFreeFields, and_assoc] using h
    show braceScan ((',' :: ' ' :: serStr k ++ ':' :: ' ' :: serialize v ++ serFieldsRest tl)
      ++ rest) 1 = _
    simp only [List.cons_append, List.append_assoc]
    rw [braceScan_other ',' _ 1 (by decide) (by decide),
      braceScan_other ' ' _ 1 (by decide) (by decide),
      braceScan_nb (serStr k) (serStr_no_brace k hh.1) _ 1,
      braceScan_other ':' _ 1 (by decide) (by decide),
      braceScan_other ' ' _ 1 (by decide) (by decide),
      braceThrough_v v hh.2.1 _ 1 (by omega),
      braceStop_fr tl hh.2.2 rest]
    simp only [Option.map_some', serFieldsRest, serFieldsFirst, serStr,
      List.length_cons, List.length_append]
    congr 1
    omega

theorem braceStop_ff : ∀ (l : JsonFields), braceFreeFields l = true → ∀ (rest : List Char),
    braceScan (serFieldsFirst l ++ rest) 1 = some (serFieldsFirst l).length
  | .nil, _, rest => by
    show braceScan (['}'] ++ rest) 1 = _
    rw [List.singleton_append, braceScan_close_stop rest 1 (by ring)]
    rfl
  | .cons k v tl, h, rest => by
    have hh : strNoBrace k = true ∧ braceFree v = true ∧ braceFreeFields tl = true := by
      simpa [braceFreeFields, and_assoc] using h
    show braceScan ((serStr k ++ ':' :: ' ' :: serialize v ++ serFieldsRest tl) ++ rest) 1 = _
    simp only [List.cons_append, List.append_assoc]
    rw [braceScan_nb (serStr k) (serStr_no_brace k hh.1) _ 1,
      braceScan_other ':' _ 1 (by decide) (by decide),
      braceScan_other ' ' _ 1 (by decide) (by decide),
      braceThrough_v v hh.2.1 _ 1 (by omega),
      braceStop_fr tl hh.2.2 rest]
    simp only [Option.map_some', serFieldsRest, serFieldsFirst, serStr,
      List.length_cons, List.length_append]
    congr 1
    omega

/-! ### Extraction on serialized objects (C5) and span soundness (C4) -/

theorem serFieldsRest_split : ∀ (l : JsonFields), ∃ mid, serFieldsRest l = mid ++ ['}']
  | .nil => ⟨[], rfl⟩
  | .cons k v tl => by
    obtain ⟨mid, hm⟩ := serFieldsRest_split tl
    refine ⟨',' :: ' ' :: serStr k ++ ':' :: ' ' :: serialize v ++ mid, ?_⟩
    show ',' :: ' ' :: serStr k ++ ':' :: ' ' :: serialize v ++ serFieldsRest tl = _
    rw [hm]
    simp

theorem serFieldsFirst_split : ∀ (l : JsonFields), ∃ mid, serFieldsFirst l = mid ++ ['}']
  | .nil => ⟨[], rfl⟩
  | .cons k v tl => by
    obtain ⟨mid, hm⟩ := serFieldsRest_split tl
    refine ⟨serStr k ++ ':' :: ' ' :: serialize v ++ mid, ?_⟩
    show serStr k ++ ':' :: ' ' :: serialize v ++ serFieldsRest tl = _
    rw [hm]
    simp

theorem pyStrip_eq_self (a b : Char) (mid : List Char) (ha : isPyWs a = false)
    (hb : isPyWs b = false) : pyStrip (a :: (mid ++ [b])) = a :: (mid ++ [b]) := by
  unfold pyStrip
  rw [List.dropWhile_cons_of_neg (by simp [ha])]
  rw [show (a :: (mid ++ [b])).reverse = b :: (mid.reverse ++ [a]) by simp]
  rw [List.dropWhile_cons_of_neg (by simp [hb])]
  simp

theorem pyStrip_serialize_obj (l : JsonFields) :
    pyStrip (serialize (Json.obj l)) = serialize (Json.obj l) := by
  obtain ⟨mid, hm⟩ := serFieldsFirst_split l
  have hser : serialize (Json.obj l) = '{' :: (mid ++ ['}']) := by
    show '{' :: serFieldsFirst l = _
    rw [hm]
  rw [hser]
  exact pyStrip_eq_self '{' '}' mid (by decide) (by decide)

theorem braceScan_serialize_obj (l : JsonFields) (h : braceFreeFields l = true) :
    braceScan (serialize (Json.obj l)) 0 = some (serialize (Json.obj l)).length := by
  have h0 : serialize (Json.obj l) = '{' :: (serFieldsFirst l ++ []) := by
    show '{' :: serFieldsFirst l = _
    simp
  rw [h0, braceScan_open]
  norm_num
  have hs := braceStop_ff l h []
  rw [List.append_nil] at hs
  exact hs

theorem findSpansF_past_end : ∀ (fuel : Nat) (cs : List Char) (i : Nat), cs.length ≤ i →
    findSpansF fuel cs i = []
  | 0, _, _, _ => rfl
  | fuel + 1, cs, i, hi => by
    unfold findSpansF
    rw [List.drop_eq_nil_of_le hi]
    rfl

theorem findSpansF_whole (cs : List Char) (fuel : Nat) (hne : findOpenBrace cs = some 0)
    (hscan : braceScan cs 0 = some cs.length) :
    findSpansF (fuel + 1) cs 0 = [(0, cs.length)] := by
  unfold findSpansF
  rw [List.drop_zero, hne]
  simp only [Nat.add_zero, Nat.zero_add, List.drop_zero]
  rw [hscan]
  simp only [Nat.zero_add]
  rw [findSpansF_past_end fuel cs cs.length (le_refl _)]

theorem find_json_objects_serialize_obj (l : JsonFields) (h : braceFreeFields l = true) :
    find_json_objects (serialize (Json.obj l)) =
      [(0, (serialize (Json.obj l)).length)] := by
  unfold find_json_objects
  rw [pyStrip_serialize_obj l]
  refine findSpansF_whole _ _ ?_ (braceScan_serialize_obj l h)
  show findOpenBrace ('{' :: serFieldsFirst l) = some 0
  simp [findOpenBrace]

theorem braceScan_pos_le : ∀ (cs : List Char) (d : Int) (k : Nat),
    braceScan cs d = some k → 1 ≤ k ∧ k ≤ cs.length
  | [], _, k, h => by simp [braceScan] at h
  | c :: rest, d, k, h => by
    unfold braceScan at h
    split at h
    · obtain ⟨m, hm, hk⟩ := Option.map_eq_some'.mp h
      have hk' : m + 1 = k := hk
      have ih := braceScan_pos_le rest (d + 1) m hm
      simp only [List.length_cons]
      omega
    · split at h
      · split at h
        · injection h with h
          simp only [List.length_cons]
          omega
        · obtain ⟨m, hm, hk⟩ := Option.map_eq_some'.mp h
          have hk' : m + 1 = k := hk
          have ih := braceScan_pos_le rest (d - 1) m hm
          simp only [List.length_cons]
          omega
      · obtain ⟨m, hm, hk⟩ := Option.map_eq_some'.mp h
        have hk' : m + 1 = k := hk
        have ih := braceScan_pos_le rest d m hm
        simp only [List.length_cons]
        omega

theorem findOpenBrace_spec : ∀ (cs : List Char) (off : Nat), findOpenBrace cs = some off →
    off < cs.length ∧ cs[off]? = some '{'
  | [], _, h => by simp [findOpenBrace] at h
  | c :: rest, off, h => by
    unfold findOpenBrace at h
    split at h
    · injection h with h
      subst h
      rename_i hc
      subst hc
      simp
    · obtain ⟨m, hm, hk⟩ := Option.map_eq_some'.mp h
      have hk' : m + 1 = off := hk
      have ih := findOpenBrace_spec rest m hm
      subst hk'
      refine ⟨by simp only [List.length_cons]; omega, ?_⟩
      simpa using ih.2

theorem findSpansF_sound : ∀ (fuel : Nat) (cs : List Char) (i : Nat) (s e : Nat),
    (s, e) ∈ findSpansF fuel cs i →
    i ≤ s ∧ s < e ∧ e ≤ cs.length ∧ cs[s]? = some '{' ∧
      braceScan (cs.drop s) 0 = some (e - s)
  | 0, _, _, _, _, h => by simp [findSpansF] at h
  | fuel + 1, cs, i, s, e, h => by
    unfold findSpansF at h
    split at h
    · simp at h
    · rename_i off ho
      have hoff := findOpenBrace_spec _ _ ho
      rw [List.length_drop] at hoff
      split at h
      · rename_i len hb
        simp only [List.mem_cons] at h
        rcases h with h | h
        · injection h with h1 h2
          subst h1
          subst h2
          have hpos := braceScan_pos_le _ _ _ hb
          rw [List.length_drop] at hpos
          refine ⟨by omega, by omega, by omega, ?_, ?_⟩
          · have h2 := hoff.2
            rw [List.getElem?_drop] at h2
            exact h2
          · rw [show i + off + len - (i + off) = len by omega]
            exact hb
        · have ih := findSpansF_sound fuel cs (i + off + len) s e h
          have hpos := braceScan_pos_le _ _ _ hb
          exact ⟨by omega, ih.2⟩
      · rename_i hb
        have ih := findSpansF_sound fuel cs (i + off + 1) s e h
        exact ⟨by omega, ih.2⟩

theorem findSpansF_chain : ∀ (fuel : Nat) (cs : List Char) (i : Nat),
    List.Chain' (fun a b : Nat × Nat => a.2 ≤ b.1) (findSpansF fuel cs i)
  | 0, _, _ => by simp [findSpansF]
  | fuel + 1, cs, i => by
    unfold findSpansF
    split
    · simp
    · rename_i off ho
      split
      · rename_i len hb
        rw [List.chain'_cons']
        refine ⟨?_, findSpansF_chain fuel cs (i + off + len)⟩
        intro b hbmem
        have hb2 : b ∈ findSpansF fuel cs (i + off + len) := List.mem_of_mem_head? hbmem
        have hs := findSpansF_sound fuel cs (i + off + len) b.1 b.2 (by simpa using hb2)
        exact hs.1
      · exact findSpansF_chain fuel cs (i + off + 1)

theorem tryChunks_eq : ∀ (t : List Char) (sp : List (Nat × Nat)),
    tryChunks t sp =
      match (sp.filterMap fun p => json_loads ((t.drop p.1).take (p.2 - p.1))).head? with
      | some j => Except.ok j
      | none => Except.error "No valid JSON object found in response"
  | _, [] => rfl
  | t, (s, e) :: rest => by
    unfold tryChunks
    rw [List.filterMap_cons]
    cases hj : json_loads ((t.drop s).take (e - s)) with
    | none =>
      simp only [hj]
      exact tryChunks_eq t rest
    | some j =>
      simp only [hj, List.head?_cons]

/-! ### Chunking lemmas (C6) -/

theorem sendLoop_flatten (s : List Char) (start : Nat) :
    (sendLoop s start).flatten = s.drop start := by
  unfold sendLoop
  split
  · rename_i h
    have ih := sendLoop_flatten s (start + MESSAGE_LIMIT)
    simp only [List.flatten_cons, ih]
    rw [← List.drop_drop, List.take_append_drop]
  · rename_i h
    rw [List.drop_eq_nil_of_le (by omega)]
    rfl
termination_by s.length - start
decreasing_by simp [MESSAGE_LIMIT]; omega

theorem sendLoop_length (s : List Char) (start : Nat) :
    (sendLoop s start).length = (s.length - start + MESSAGE_LIMIT - 1) / MESSAGE_LIMIT := by
  unfold sendLoop
  split
  · rename_i h
    have ih := sendLoop_length s (start + MESSAGE_LIMIT)
    simp only [List.length_cons, ih, MESSAGE_LIMIT] at *
    omega
  · rename_i h
    simp only [List.length_nil, MESSAGE_LIMIT] at *
    omega
termination_by s.length - start
decreasing_by simp [MESSAGE_LIMIT]; omega

theorem sendLoop_chunk_le (s : List Char) (start : Nat) :
    ∀ c ∈ sendLoop s start, c.length ≤ MESSAGE_LIMIT := by
  unfold sendLoop
  split
  · rename_i h
    intro c hc
    rcases List.mem_cons.mp hc with h2 | h2
    · subst h2
      exact List.length_take_le MESSAGE_LIMIT (s.drop start)
    · exact sendLoop_chunk_le s (start + MESSAGE_LIMIT) c h2
  · intro c hc
    simp at hc
termination_by s.length - start
decreasing_by simp [MESSAGE_LIMIT]; omega

theorem sendLoop_getElem (s : List Char) (start i : Nat) :
    (sendLoop s start)[i]? =
      if start + i * MESSAGE_LIMIT < s.length then
        some ((s.drop (start + i * MESSAGE_LIMIT)).take MESSAGE_LIMIT)
      else none := by
  unfold sendLoop
  split
  · rename_i h
    cases i with
    | zero => simp [h]
    | succ n =>
      rw [List.getElem?_cons_succ, sendLoop_getElem s (start + MESSAGE_LIMIT) n]
      have harith : start + MESSAGE_LIMIT + n * MESSAGE_LIMIT = start + (n + 1) * MESSAGE_LIMIT := by
        ring
      rw [harith]
  · rename_i h
    have : ¬ start + i * MESSAGE_LIMIT < s.length := by omega
    simp [this]
termination_by s.length - start
decreasing_by simp [MESSAGE_LIMIT]; omega

/-- C6 (counterexample): on the empty block the code emits one (empty)
message, not `ceil(0 / M) = 0` messages. -/
theorem sendBlock_empty_counterexample :
    sendBlock [] = [[]] ∧
    (sendBlock ([] : List Char)).length = 1 ∧
    (([] : List Char).length + MESSAGE_LIMIT - 1) / MESSAGE_LIMIT = 0 := by
  refine ⟨rfl, rfl, by decide⟩

/-- C6 (amended): for every nonempty text block, `_send_campaign` emits
exactly `ceil(L / MESSAGE_LIMIT)` messages, each at most `MESSAGE_LIMIT`
characters, together concatenating to the original text, the i-th being the
fixed-width slice starting at `i * MESSAGE_LIMIT` — no word-boundary
breaking. -/
theorem sendBlock_spec (s : List Char) (hne : s ≠ []) :
    (sendBlock s).length = (s.length + MESSAGE_LIMIT - 1) / MESSAGE_LIMIT ∧
    (∀ c ∈ sendBlock s, c.length ≤ MESSAGE_LIMIT) ∧
    (sendBlock s).flatten = s ∧
    (∀ i : Nat, (sendBlock s)[i]? =
      if i * MESSAGE_LIMIT < s.length then
        some ((s.drop (i * MESSAGE_LIMIT)).take MESSAGE_LIMIT)
      else none) := by
  have hpos : 0 < s.length := List.length_pos.mpr hne
  unfold sendBlock
  split
  · rename_i h
    refine ⟨?_, sendLoop_chunk_le s 0, ?_, ?_⟩
    · rw [sendLoop_length]
      simp only [MESSAGE_LIMIT]
      omega
    · rw [sendLoop_flatten, List.drop_zero]
    · intro i
      rw [sendLoop_getElem]
      simp
  · rename_i h
    refine ⟨?_, ?_, by simp, ?_⟩
    · simp only [List.length_singleton, MESSAGE_LIMIT] at *
      omega
    · intro c hc
      simp only [List.mem_singleton] at hc
      subst hc
      omega
    · intro i
      cases i with
      | zero =>
        simp only [List.getElem?_cons_zero, Nat.zero_mul, hpos, if_true, List.drop_zero]
        rw [List.take_of_length_le (by omega)]
      | succ n =>
        simp only [MESSAGE_LIMIT] at h ⊢
        split
        · rename_i hcond
          exfalso
          omega
        · simp

/-- Witness for C6 (amended) on a concrete short block. -/
theorem sendBlock_spec_witness :
    (sendBlock ['a', 'b']).length = 1 ∧ (sendBlock ['a', 'b']).flatten = ['a', 'b'] := by
  have h := sendBlock_spec ['a', 'b'] (by decide)
  exact ⟨by rw [h.1]; decide, h.2.2.1⟩

/-! ### Field-table lemmas and stage theorems (C7, C8) -/

theorem getField_setField_of_absent :
    ∀ (out : JsonFields) (key : List Char) (v : Json),
      getField out key = none →
      getField (setField out key v) key = some v ∧
      (∀ k2, k2 ≠ key → getField (setField out key v) k2 = getField out k2)
  | .nil, key, v, _ => by
    refine ⟨by simp [setField, getField], ?_⟩
    intro k2 hk2
    simp only [setField, getField]
    rw [if_neg fun hh => hk2 hh.symm]
  | .cons k w tl, key, v, h => by
    have hsplit : getField tl key = none ∧ ¬ k = key := by
      simp only [getField] at h
      cases hg : getField tl key with
      | some r => rw [hg] at h; exact absurd h (by simp)
      | none =>
        rw [hg] at h
        refine ⟨rfl, ?_⟩
        intro hk
        rw [if_pos hk] at h
        exact absurd h (by simp)
    obtain ⟨htl, hk⟩ := hsplit
    have ihh := getField_setField_of_absent tl key v htl
    constructor
    · simp only [setField, if_neg hk, getField, ihh.1]
    · intro k2 hk2
      simp only [setField, if_neg hk, getField, ihh.2 k2 hk2]

/-- C7 (counterexample): a truthy non-list `ads` value is wrapped into a
one-element list, not degraded to the empty list the claim states. -/
theorem step2_ads_counterexample :
    step2_ads_of (.cons adsKey (.num 7) .nil) = [Json.num 7] ∧
    step2_ads_of (.cons adsKey (.num 7) .nil) ≠ [] := by decide

/-- C7 (amended): `_step2_ads` never errors on the `ads` field: an absent or
falsy `ads` degrades to the empty list, a list is taken as is, and a truthy
non-list value is wrapped into a one-element list. -/
theorem step2_ads_spec (data : JsonFields) :
    (getField data adsKey = none → step2_ads_of data = []) ∧
    (∀ v, getField data adsKey = some v → v.isTruthy = false → step2_ads_of data = []) ∧
    (∀ l, getField data adsKey = some (.arr l) → step2_ads_of data = elemsToList l) ∧
    (∀ v, getField data adsKey = some v → v.isTruthy = true → (∀ l, v ≠ .arr l) →
      step2_ads_of data = [v]) := by
  refine ⟨?_, ?_, ?_, ?_⟩
  · intro h
    simp [step2_ads_of, h, Json.isTruthy, elemsToList]
  · intro v h hv
    simp [step2_ads_of, h, hv, elemsToList]
  · intro l h
    cases l with
    | nil => simp [step2_ads_of, h, Json.isTruthy, elemsToList]
    | cons a tl => simp [step2_ads_of, h, Json.isTruthy]
  · intro v h hv hnl
    cases v with
    | arr l => exact absurd rfl (hnl l)
    | null => simp [Json.isTruthy] at hv
    | bool b => simp [step2_ads_of, h, hv]
    | num n => simp [step2_ads_of, h, hv]
    | str s => simp [step2_ads_of, h, hv]
    | obj f => simp [step2_ads_of, h, hv]

/-- Witness for C7 (amended): an absent and an empty-dict `ads` field both
give the empty ad list. -/
theorem step2_ads_spec_witness :
    step2_ads_of .nil = [] ∧ step2_ads_of (.cons adsKey (.obj .nil) .nil) = [] :=
  ⟨(step2_ads_spec .nil).1 rfl,
    (step2_ads_spec (.cons adsKey (.obj .nil) .nil)).2.1 (.obj .nil) rfl rfl⟩

/-- C8 (counterexample): with `vk_campaign` absent but `project_summary` a
number, `_step1_analysis` fails (Python `1[:80]` raises `TypeError`) instead
of inserting the defaults. -/
theorem step1_vk_fixup_counterexample :
    getField (.cons projectSummaryKey (.num 1) .nil) vkCampaignKey = none ∧
    step1_vk_fixup (.cons projectSummaryKey (.num 1) .nil) = .error () := by decide

/-- C8 (amended): when the extracted analysis has no `vk_campaign` key and its
`project_summary`, if present, is sliceable (a string or list),
`_step1_analysis` does not fail but installs the synthesized defaults dict —
age 18-55, daily budget 500, bid 15, country "1", bid type "cpc" — and leaves
every other key unchanged. -/
theorem step1_vk_fixup_spec (out : JsonFields)
    (hvk : getField out vkCampaignKey = none)
    (hps : ∀ v, getField out projectSummaryKey = some v →
      (∃ s, v = Json.str s) ∨ (∃ l, v = Json.arr l)) :
    step1_vk_fixup out =
      .ok (setField out vkCampaignKey (.obj (defaultVkCampaign (step1CampaignName out)))) ∧
    getField (setField out vkCampaignKey (.obj (defaultVkCampaign (step1CampaignName out))))
      vkCampaignKey = some (.obj (defaultVkCampaign (step1CampaignName out))) ∧
    (∀ k, k ≠ vkCampaignKey →
      getField (setField out vkCampaignKey (.obj (defaultVkCampaign (step1CampaignName out)))) k =
        getField out k) ∧
    getField (defaultVkCampaign (step1CampaignName out))
      ['a', 'g', 'e', '_', 'f', 'r', 'o', 'm'] = some (.num 18) ∧
    getField (defaultVkCampaign (step1CampaignName out))
      ['a', 'g', 'e', '_', 't', 'o'] = some (.num 55) ∧
    getField (defaultVkCampaign (step1CampaignName out))
      ['b', 'u', 'd', 'g', 'e', 't', '_', 'd', 'a', 'i', 'l', 'y', '_', 'r', 'u', 'b'] =
        some (.num 500) ∧
    getField (defaultVkCampaign (step1CampaignName out))
      ['b', 'i', 'd', '_', 'r', 'u', 'b'] = some (.num 15) ∧
    getField (defaultVkCampaign (step1CampaignName out))
      ['c', 'o', 'u', 'n', 't', 'r', 'y'] = some (.str ['1']) ∧
    getField (defaultVkCampaign (step1CampaignName out))
      ['b', 'i', 'd', '_', 't', 'y', 'p', 'e'] = some (.str ['c', 'p', 'c']) := by
  have hgs := getField_setField_of_absent out vkCampaignKey
    (.obj (defaultVkCampaign (step1CampaignName out))) hvk
  refine ⟨?_, hgs.1, hgs.2, rfl, rfl, rfl, rfl, rfl, rfl⟩
  cases hg : getField out projectSummaryKey with
  | none =>
    simp only [step1_vk_fixup, step1CampaignName, hvk, hg, Json.isTruthy]
    rfl
  | some v =>
    rcases hps v hg with ⟨s, rfl⟩ | ⟨l, rfl⟩
    · simp only [step1_vk_fixup, step1CampaignName, hvk, hg, Json.isTruthy]
      rfl
    · simp only [step1_vk_fixup, step1CampaignName, hvk, hg, Json.isTruthy]
      rfl

/-- Witness for C8 (amended) on the empty analysis dict. -/
theorem step1_vk_fixup_spec_witness :
    step1_vk_fixup .nil =
      .ok (setField .nil vkCampaignKey (.obj (defaultVkCampaign (step1CampaignName .nil)))) ∧
    getField (defaultVkCampaign (step1CampaignName .nil))
      ['a', 'g', 'e', '_', 'f', 'r', 'o', 'm'] = some (.num 18) := by
  have h := step1_vk_fixup_spec .nil rfl (fun v hv => by simp [getField] at hv)
  exact ⟨h.1, h.2.2.2.1⟩

/-! ### Image-loop lemmas and theorems (C9) -/

theorem applyImages_getElem (img : ImageOutcome) (ads : List AdVariant) (i : Nat) :
    (applyImages img ads)[i]? =
      (ads[i]?).map fun ad =>
        if ad.image_prompt.isEmpty then ad
        else
          match img i with
          | .error _ => ad
          | .ok none => ad
          | .ok (some path) => { ad with image_path := some path } := by
  unfold applyImages
  rw [List.getElem?_map, List.getElem?_enum]
  cases ads[i]? <;> simp

theorem applyImages_length (img : ImageOutcome) (ads : List AdVariant) :
    (applyImages img ads).length = ads.length := by
  unfold applyImages
  rw [List.length_map, List.enum_length]

/-- C9: in `generate_campaign` an exception while rendering one variant's
image is caught and only that variant's `image_path` is skipped: the draft
still contains one variant per raw ad, a variant whose render failed is
exactly the unmodified variant, each variant's result depends only on its own
render outcome, and every delivered variant keeps the generated text fields,
differing from the freshly built variant at most in `image_path`. -/
theorem generate_campaign_image_isolation (analysis : JsonFields)
    (ads_raw : List JsonFields) (prompts : Nat → List Char) (img img2 : ImageOutcome) :
    ((generate_campaign analysis ads_raw prompts true img).ads.length = ads_raw.length) ∧
    ((generate_campaign analysis ads_raw prompts true img).ads =
      applyImages img (ads_raw.enum.map fun p => mkAdVariant p.2 (prompts p.1))) ∧
    (∀ i, img i = .error () →
      (generate_campaign analysis ads_raw prompts true img).ads[i]? =
        (ads_raw[i]?).map fun a => mkAdVariant a (prompts i)) ∧
    (∀ i, img i = img2 i →
      (generate_campaign analysis ads_raw prompts true img).ads[i]? =
        (generate_campaign analysis ads_raw prompts true img2).ads[i]?) ∧
    (∀ i ad2, (generate_campaign analysis ads_raw prompts true img).ads[i]? = some ad2 →
      ∃ a, ads_raw[i]? = some a ∧
        ∃ ipath, ad2 = { mkAdVariant a (prompts i) with image_path := ipath }) := by
  have hbase : ∀ i : Nat,
      (ads_raw.enum.map fun p => mkAdVariant p.2 (prompts p.1))[i]? =
        (ads_raw[i]?).map fun a => mkAdVariant a (prompts i) := by
    intro i
    rw [List.getElem?_map, List.getElem?_enum]
    cases ads_raw[i]? <;> simp
  refine ⟨?_, rfl, ?_, ?_, ?_⟩
  · show (applyImages img _).length = _
    rw [applyImages_length, List.length_map, List.enum_length]
  · intro i herr
    show (applyImages img _)[i]? = _
    rw [applyImages_getElem, hbase i, herr]
    cases ads_raw[i]? <;> simp
  · intro i heq
    show (applyImages img _)[i]? = (applyImages img2 _)[i]?
    rw [applyImages_getElem, applyImages_getElem, heq]
  · intro i ad2 h
    rw [show (generate_campaign analysis ads_raw prompts true img).ads =
        applyImages img (ads_raw.enum.map fun p => mkAdVariant p.2 (prompts p.1)) from rfl] at h
    rw [applyImages_getElem, hbase i] at h
    cases ha : ads_raw[i]? with
    | none => rw [ha] at h; simp at h
    | some a =>
      rw [ha, Option.map_some'] at h
      injection h with h
      refine ⟨a, rfl, ?_⟩
      by_cases hp : (mkAdVariant a (prompts i)).image_prompt.isEmpty
      · exact ⟨(mkAdVariant a (prompts i)).image_path, by rw [← h]; simp [hp]⟩
      · cases hi : img i with
        | error e => exact ⟨(mkAdVariant a (prompts i)).image_path, by rw [← h]; simp [hp, hi]⟩
        | ok op =>
          cases op with
          | none => exact ⟨(mkAdVariant a (prompts i)).image_path, by rw [← h]; simp [hp, hi]⟩
          | some path => exact ⟨some path, by rw [← h]; simp [hp, hi]⟩

/-- Witness for C9: two raw ads, the first render raises, the second
succeeds; both variants are present, the first unchanged. -/
theorem generate_campaign_image_isolation_witness :
    ((generate_campaign .nil [JsonFields.nil, JsonFields.nil] (fun _ => ['p']) true
        (fun i => if i = 0 then .error () else .ok (some ['x']))).ads.length = 2) ∧
    ((generate_campaign .nil [JsonFields.nil, JsonFields.nil] (fun _ => ['p']) true
        (fun i => if i = 0 then .error () else .ok (some ['x']))).ads[0]? =
      some (mkAdVariant .nil ['p'])) := by
  have h := generate_campaign_image_isolation .nil [JsonFields.nil, JsonFields.nil]
    (fun _ => ['p']) (fun i => if i = 0 then .error () else .ok (some ['x']))
    (fun i => if i = 0 then .error () else .ok (some ['x']))
  refine ⟨h.1, ?_⟩
  rw [h.2.2.1 0 rfl]
  rfl

/-! ### Photo retry theorems (C10) -/

/-- C10: photo delivery attempts `send_photo` at most `PHOTO_SEND_RETRIES = 3`
times with the fixed `PHOTO_SEND_RETRY_DELAY = 3` wait between consecutive
failed attempts, stops on the first success, falls back to sending the full
text block when all attempts fail or when photo preparation fails, and in a
fail-fail-succeed run makes exactly 3 attempts, ends successfully, and emits
no fallback block. -/
theorem photo_retry_spec (success : Nat → Bool)
    (block : List Char) (bytes : List Nat) :
    ((retryLoop success).1.count TgEvent.photoAttempt ≤ PHOTO_SEND_RETRIES) ∧
    (∀ d, TgEvent.sleep d ∈ (retryLoop success).1 → d = PHOTO_SEND_RETRY_DELAY) ∧
    (success 1 = true → retryLoop success = ([.photoAttempt], true)) ∧
    (success 1 = false → success 2 = true →
      retryLoop success =
        ([.photoAttempt, .sleep PHOTO_SEND_RETRY_DELAY, .photoAttempt], true)) ∧
    (success 1 = false → success 2 = false → success 3 = true →
      retryLoop success =
        ([.photoAttempt, .sleep PHOTO_SEND_RETRY_DELAY, .photoAttempt,
          .sleep PHOTO_SEND_RETRY_DELAY, .photoAttempt], true) ∧
      deliverAdBlock true (some (1 :: bytes)) success block =
        ([.photoAttempt, .sleep PHOTO_SEND_RETRY_DELAY, .photoAttempt,
          .sleep PHOTO_SEND_RETRY_DELAY, .photoAttempt] ++ textBlockEvents block, false)) ∧
    (success 1 = false → success 2 = false → success 3 = false →
      retryLoop success =
        ([.photoAttempt, .sleep PHOTO_SEND_RETRY_DELAY, .photoAttempt,
          .sleep PHOTO_SEND_RETRY_DELAY, .photoAttempt], false) ∧
      deliverAdBlock true (some (1 :: bytes)) success block =
        ([.photoAttempt, .sleep PHOTO_SEND_RETRY_DELAY, .photoAttempt,
          .sleep PHOTO_SEND_RETRY_DELAY, .photoAttempt] ++ [.message block], true)) ∧
    (deliverAdBlock true none success block = (textBlockEvents block, false) ∧
      (sendBlock block).flatten = block) := by
  have hflat : (sendBlock block).flatten = block := by
    unfold sendBlock
    split
    · rw [sendLoop_flatten, List.drop_zero]
    · simp
  cases h1 : success 1 with
  | true =>
    refine ⟨?_, ?_, fun _ => ?_, ?_, ?_, ?_, ⟨rfl, hflat⟩⟩
    · simp [retryLoop, retryGo, PHOTO_SEND_RETRIES, h1]
    · intro d hd
      simp [retryLoop, retryGo, PHOTO_SEND_RETRIES, h1] at hd
    · simp [retryLoop, retryGo, PHOTO_SEND_RETRIES, h1]
    · intro hc; simp [h1] at hc
    · intro hc; simp [h1] at hc
    · intro hc; simp [h1] at hc
  | false =>
    cases h2 : success 2 with
    | true =>
      refine ⟨?_, ?_, fun hc => by simp [h1] at hc, fun _ _ => ?_, ?_, ?_,
        ⟨rfl, hflat⟩⟩
      · simp [retryLoop, retryGo, PHOTO_SEND_RETRIES, h1, h2]
      · intro d hd
        simp [retryLoop, retryGo, PHOTO_SEND_RETRIES, h1, h2] at hd
        simpa using hd
      · simp [retryLoop, retryGo, PHOTO_SEND_RETRIES, PHOTO_SEND_RETRY_DELAY, h1, h2]
      · intro _ hc; simp [h2] at hc
      · intro _ hc; simp [h2] at hc
    | false =>
      cases h3 : success 3 with
      | true =>
        refine ⟨?_, ?_, fun hc => by simp [h1] at hc,
          fun _ hc => by simp [h2] at hc, fun _ _ _ => ⟨?_, ?_⟩,
          fun _ _ hc => by simp [h3] at hc, ⟨rfl, hflat⟩⟩
        · simp [retryLoop, retryGo, PHOTO_SEND_RETRIES, h1, h2, h3]
        · intro d hd
          simp [retryLoop, retryGo, PHOTO_SEND_RETRIES, h1, h2, h3] at hd
          exact hd
        · simp [retryLoop, retryGo, PHOTO_SEND_RETRIES, PHOTO_SEND_RETRY_DELAY, h1, h2, h3]
        · simp only [deliverAdBlock, List.isEmpty_cons, Bool.false_eq_true, if_false]
          rw [show retryLoop success =
            ([.photoAttempt, .sleep PHOTO_SEND_RETRY_DELAY, .photoAttempt,
              .sleep PHOTO_SEND_RETRY_DELAY, .photoAttempt], true) from by
            simp [retryLoop, retryGo, PHOTO_SEND_RETRIES, PHOTO_SEND_RETRY_DELAY, h1, h2, h3]]
          simp
      | false =>
        refine ⟨?_, ?_, fun hc => by simp [h1] at hc,
          fun _ hc => by simp [h2] at hc,
          fun _ _ hc => by simp [h3] at hc, fun _ _ _ => ⟨?_, ?_⟩,
          ⟨rfl, hflat⟩⟩
        · simp [retryLoop, retryGo, PHOTO_SEND_RETRIES, h1, h2, h3]
        · intro d hd
          simp [retryLoop, retryGo, PHOTO_SEND_RETRIES, h1, h2, h3] at hd
          exact hd
        · simp [retryLoop, retryGo, PHOTO_SEND_RETRIES, PHOTO_SEND_RETRY_DELAY, h1, h2, h3]
        · simp only [deliverAdBlock, List.isEmpty_cons, Bool.false_eq_true, if_false]
          rw [show retryLoop success =
            ([.photoAttempt, .sleep PHOTO_SEND_RETRY_DELAY, .photoAttempt,
              .sleep PHOTO_SEND_RETRY_DELAY, .photoAttempt], false) from by
            simp [retryLoop, retryGo, PHOTO_SEND_RETRIES, PHOTO_SEND_RETRY_DELAY, h1, h2, h3]]
          simp

/-- Witness for C10: a run that fails twice then succeeds on the third
attempt makes exactly 3 attempts, ends in success, and emits only the normal
chunked block, not the fallback message. -/
theorem photo_retry_spec_witness :
    retryLoop (fun n => n == 3) =
      ([.photoAttempt, .sleep PHOTO_SEND_RETRY_DELAY, .photoAttempt,
        .sleep PHOTO_SEND_RETRY_DELAY, .photoAttempt], true) ∧
    deliverAdBlock true (some [1]) (fun n => n == 3) ['b'] =
      ([.photoAttempt, .sleep PHOTO_SEND_RETRY_DELAY, .photoAttempt,
        .sleep PHOTO_SEND_RETRY_DELAY, .photoAttempt] ++ textBlockEvents ['b'], false) :=
  (photo_retry_spec (fun n => n == 3) ['b'] []).2.2.2.2.1 rfl rfl rfl

/-- C3: `_run_campaign_task` removes the recipient's generation record on
every exit path — success, `ValueError` and any other exception alike — so
after the task terminates no record remains for that chat key. -/
theorem run_campaign_task_clears (outcome : TaskOutcome) (st : GenState)
    (chat : Int) (rid : Option Int) :
    run_campaign_task outcome st chat rid chat = none := by
  cases outcome <;> simp [run_campaign_task, clear_generation_state]

/-- C5 (counterexample): the extraction round-trip fails on an object whose
string value contains a closing brace: the naive depth counter of
`_find_json_objects` stops inside the string literal, the recorded span is
not valid JSON, and `extract_json_from_text` on
`serialize {"a": "\x7d"}` returns the no-valid-object error instead of the
object. -/
theorem extract_roundtrip_counterexample :
    extract_json_from_text (serialize (Json.obj (.cons ['a'] (.str ['}']) .nil))) =
      Except.error "No valid JSON object found in response" := by decide

/-- C5 (amended): for every object none of whose strings (keys or values)
contains a curly brace, `extract_json_from_text` applied to the
serialization returns exactly that object; brace characters inside string
values break the scanner and make extraction fail. -/
theorem extract_serialize_roundtrip (l : JsonFields) (h : braceFreeFields l = true) :
    extract_json_from_text (serialize (Json.obj l)) = Except.ok (Json.obj l) := by
  simp only [extract_json_from_text, pyStrip_serialize_obj l,
    find_json_objects_serialize_obj l h]
  simp [tryChunks, json_loads_serialize]

/-- Witness for C5 (amended) on the brace-free object `{"a": 1}`. -/
theorem extract_serialize_roundtrip_witness :
    braceFreeFields (JsonFields.cons ['a'] (Json.num 1) JsonFields.nil) = true ∧
    extract_json_from_text
        (serialize (Json.obj (JsonFields.cons ['a'] (Json.num 1) JsonFields.nil))) =
      Except.ok (Json.obj (JsonFields.cons ['a'] (Json.num 1) JsonFields.nil)) :=
  ⟨by decide, extract_serialize_roundtrip _ (by decide)⟩

/-- C4: `extract_json_from_text` collects the balanced-brace spans of its
stripped input left to right (every recorded span starts at a `'{'`, is
closed by the depth scan, stays inside the text, and successive spans do not
overlap), tries the spans as JSON candidates last-to-first and returns the
first parse, errors with "JSON object not found in response" when no span
exists and with "No valid JSON object found in response" when none parses;
concretely, on two balanced objects where only the second (or both) are
valid JSON the second is returned, and unbalanced input fails cleanly. -/
theorem extract_json_spec :
    (∀ (cs : List Char) (s e : Nat), (s, e) ∈ find_json_objects cs →
        s < e ∧ e ≤ (pyStrip cs).length ∧ (pyStrip cs)[s]? = some '{' ∧
        braceScan ((pyStrip cs).drop s) 0 = some (e - s)) ∧
    (∀ cs : List Char,
        List.Chain' (fun a b : Nat × Nat => a.2 ≤ b.1) (find_json_objects cs)) ∧
    (∀ cs : List Char, extract_json_from_text cs =
        let t := pyStrip cs
        let spans := find_json_objects t
        if spans.isEmpty then Except.error "JSON object not found in response"
        else
          match (spans.reverse.filterMap
              fun p => json_loads ((t.drop p.1).take (p.2 - p.1))).head? with
          | some j => Except.ok j
          | none => Except.error "No valid JSON object found in response") ∧
    extract_json_from_text
        ['{','"','a','"',':',' ','}',' ','{','"','b','"',':',' ','2','}'] =
      Except.ok (Json.obj (.cons ['b'] (Json.num 2) .nil)) ∧
    extract_json_from_text
        ['{','"','a','"',':',' ','1','}',' ','{','"','b','"',':',' ','2','}'] =
      Except.ok (Json.obj (.cons ['b'] (Json.num 2) .nil)) ∧
    extract_json_from_text ['{','"','a','"'] =
      Except.error "JSON object not found in response" ∧
    extract_json_from_text ['{','"','a','"',':',' ','}'] =
      Except.error "No valid JSON object found in response" := by
  refine ⟨?_, ?_, ?_, by decide, by decide, by decide, by decide⟩
  · intro cs s e hmem
    unfold find_json_objects at hmem
    have hs := findSpansF_sound _ _ _ s e hmem
    exact ⟨hs.2.1, hs.2.2.1, hs.2.2.2.1, hs.2.2.2.2⟩
  · intro cs
    unfold find_json_objects
    exact findSpansF_chain _ _ _
  · intro cs
    simp only [extract_json_from_text]
    by_cases hsp : (find_json_objects (pyStrip cs)).isEmpty
    · rw [if_pos hsp, if_pos hsp]
    · rw [if_neg hsp, if_neg hsp]
      exact tryChunks_eq _ _

/-- Witness for C4: the single span of `\x7b"a": 1\x7d` is (0, 8) and
satisfies the soundness facts. -/
theorem extract_json_spec_witness :
    (0, 8) ∈ find_json_objects ['{','"','a','"',':',' ','1','}'] ∧
    (0 < 8 ∧ 8 ≤ (pyStrip ['{','"','a','"',':',' ','1','}']).length ∧
      (pyStrip ['{','"','a','"',':',' ','1','}'])[0]? = some '{' ∧
      braceScan ((pyStrip ['{','"','a','"',':',' ','1','}']).drop 0) 0 = some (8 - 0)) :=
  ⟨by decide, extract_json_spec.1 ['{','"','a','"',':',' ','1','}'] 0 8 (by decide)⟩

end AdAlchemy
